import Mathlib

/-!
Verification of the structural change-extraction engine of the diff-insight
repository.  The JavaScript sources are shallowly embedded: pure functions
become Lean functions over `String`/`List Char`, the postcss syntax tree
becomes a mutual inductive, external parser invocations become explicit
outcome parameters, and exceptions become `Except`/`Option` values.
-/

namespace DiffInsight

/-! ## JavaScript string primitives

Helpers mirroring the semantics of the JavaScript string operations used by
the sources: `trim`, `toLowerCase` (ASCII range), `split`, `startsWith`,
`includes`, template-literal rendering of numbers. -/

/-- Whitespace class used by JS `trim` and `\s` (ASCII part). -/
def isJsWs (c : Char) : Bool :=
  c.toNat = 32 || c.toNat = 9 || c.toNat = 10 || c.toNat = 13 ||
  c.toNat = 11 || c.toNat = 12

/-- Newline class excluded by the JS regex dot (`.`). -/
def isJsNewline (c : Char) : Bool :=
  c.toNat = 10 || c.toNat = 13 || c.toNat = 0x2028 || c.toNat = 0x2029

/-- A character matched by the JS regex `.` metacharacter. -/
def isDotCh (c : Char) : Bool := !isJsNewline c

def isDigitCh (c : Char) : Bool := 48 ≤ c.toNat && c.toNat ≤ 57

/-- JS `toLowerCase` on one character (ASCII range; the sources only
lowercase ASCII CSS tokens). -/
def jsLower (c : Char) : Char :=
  if 65 ≤ c.toNat && c.toNat ≤ 90 then Char.ofNat (c.toNat + 32) else c

/-- JS `String.prototype.trim` on a character list. -/
def trimL (l : List Char) : List Char :=
  ((l.dropWhile isJsWs).reverse.dropWhile isJsWs).reverse

/-- JS `String.prototype.trim`. -/
def jsTrim (s : String) : String := ⟨trimL s.data⟩

/-- JS `toLowerCase` (ASCII). -/
def lowerL (l : List Char) : List Char := l.map jsLower

def lowerStr (s : String) : String := ⟨lowerL s.data⟩

/-- `value.toString().trim().toLowerCase()` as used by `normalizeValue`. -/
def lowtrim (s : String) : String := ⟨lowerL (trimL s.data)⟩

/-- Whether `pre` is a prefix of `l` (JS `startsWith`). -/
def listIsPre : List Char → List Char → Bool
  | [], _ => true
  | _ :: _, [] => false
  | p :: ps, c :: cs => p = c && listIsPre ps cs

/-- JS `String.prototype.startsWith`. -/
def strStarts (pre s : String) : Bool := listIsPre pre.data s.data

/-- Whether `needle` occurs as a contiguous sublist of `l`. -/
def listHasSub (needle : List Char) : List Char → Bool
  | [] => needle = []
  | c :: cs => listIsPre needle (c :: cs) || listHasSub needle cs

/-- JS `String.prototype.includes`. -/
def strHasSub (needle s : String) : Bool := listHasSub needle.data s.data

/-- JS `String.prototype.split('\n')` style splitting on one character. -/
def splitChar (sep : Char) : List Char → List (List Char)
  | [] => [[]]
  | c :: cs =>
    if c = sep then [] :: splitChar sep cs
    else
      match splitChar sep cs with
      | [] => [[c]]
      | p :: ps => (c :: p) :: ps

/-- JS `diff.split('\n')`. -/
def splitLines (s : String) : List String := (splitChar '\n' s.data).map String.mk

/-- Join a list of strings with a separator (`Array.prototype.join`). -/
def joinSep (sep : String) : List String → String
  | [] => ""
  | [x] => x
  | x :: y :: rest => x ++ sep ++ joinSep sep (y :: rest)

/-! ## Decimal rendering of natural numbers

JS template literals render counts in decimal.  A fueled digit writer keeps
every definition kernel-reducible. -/

def digitChar (n : Nat) : Char := Char.ofNat (48 + n)

def natDecGo : Nat → Nat → List Char → List Char
  | 0, _, acc => acc
  | fuel + 1, n, acc =>
    if n < 10 then digitChar n :: acc
    else natDecGo fuel (n / 10) (digitChar (n % 10) :: acc)

/-- Decimal rendering of a natural number, as a character list. -/
def natDecL (n : Nat) : List Char := natDecGo (n + 1) n []

/-- Decimal rendering of a natural number (JS `${count}`). -/
def natDec (n : Nat) : String := ⟨natDecL n⟩

/-- Numeric value of a digit list (most significant first). -/
def digitsVal (l : List Char) : Nat :=
  l.foldl (fun a c => a * 10 + (c.toNat - 48)) 0

/-! ## Value Normalizer

`normalizeValue` from src/parser/cssParser.js (fixed version).  The decimal
branch of the source is `parseFloat(val).toFixed(2)`; it is modelled with
exact decimal arithmetic (parse the digit string exactly, round to two
fraction digits with ties to the larger value, per the `toFixed`
specification), idealizing away the IEEE-754 width of JS numbers and the
exponential-notation branch of `toFixed` for values of 10^21 and above. -/

def isHexDigCI (c : Char) : Bool :=
  isDigitCh c || (97 ≤ c.toNat && c.toNat ≤ 102) || (65 ≤ c.toNat && c.toNat ≤ 70)

/-- Test for `/^#([0-9a-f]{3})$/i`. -/
def isHex3 : List Char → Bool
  | [h, a, b, c] => h = '#' && isHexDigCI a && isHexDigCI b && isHexDigCI c
  | _ => false

/-- Test for `/^#[0-9a-f]{6}$/i`. -/
def isHex6 : List Char → Bool
  | [h, a, b, c, d, e, f] =>
    h = '#' && isHexDigCI a && isHexDigCI b && isHexDigCI c &&
    isHexDigCI d && isHexDigCI e && isHexDigCI f
  | _ => false

/-- Expansion `#abc` to `#aabbcc` performed by the 3-digit hex branch. -/
def hexExpand : List Char → List Char
  | [h, a, b, c] => [h, a, a, b, b, c, c]
  | l => l

/-- Test for `/^\d*\.\d+$/`. -/
def isDecimalL (l : List Char) : Bool :=
  match l.drop (l.takeWhile isDigitCh).length with
  | d :: fs => d = '.' && decide (fs ≠ []) && fs.all isDigitCh
  | _ => false

/-- Exact value of a `\d*\.\d+` literal: numerator and number of fraction
digits, so the value is `n / 10^k` (the separator in the middle is the dot
whenever the decimal test succeeded). -/
def parseDecL (l : List Char) : Nat × Nat :=
  match l.drop (l.takeWhile isDigitCh).length with
  | _ :: fs => (digitsVal (l.takeWhile isDigitCh ++ fs), fs.length)
  | _ => (digitsVal (l.takeWhile isDigitCh), 0)

/-- Two-digit zero-padded rendering of `m < 100`. -/
def pad2 (m : Nat) : List Char :=
  if m < 10 then '0' :: natDecL m else natDecL m

/-- Model of `parseFloat(val).toFixed(2)` on the exact value `n / 10^k`:
round to the nearest hundredth, ties to the larger value. -/
def toFixed2 (p : Nat × Nat) : List Char :=
  let n := (200 * p.1 + 10 ^ p.2) / (2 * 10 ^ p.2)
  natDecL (n / 100) ++ '.' :: pad2 (n % 100)

/-- Test for `/^0(px|em|rem|%|vh|vw)?$/`. -/
def isZeroL (l : List Char) : Bool :=
  match l with
  | z :: u =>
    z = '0' &&
    (u = [] || u = ['p', 'x'] || u = ['e', 'm'] || u = ['r', 'e', 'm'] ||
     u = ['%'] || u = ['v', 'h'] || u = ['v', 'w'])
  | _ => false

/-- `val.replace(/\s+/g, '')` (removes every whitespace character). -/
def stripWsAll (s : String) : String := ⟨s.data.filter (fun c => !isJsWs c)⟩

/-- Branch chain of `normalizeValue` on the trimmed, lowercased value. -/
def nvBody (val : String) : String :=
  if isHex3 val.data then ⟨hexExpand val.data⟩
  else if isHex6 val.data then lowerStr val
  else if isDecimalL val.data then ⟨toFixed2 (parseDecL val.data)⟩
  else if isZeroL val.data then "0"
  else if strStarts "rgb" val then stripWsAll val
  else val

/-- Fixed cssParser `normalizeValue(value, prop)`; `prop` is unused by the
source body as well. -/
def normalizeValue (value : String) (_prop : String) : String :=
  if value = "" then value
  else nvBody (lowtrim value)

/-! ## Grid column counting

`countGridColumns` and `countColumnsInTemplate` from the fixed cssParser.
The two regexes are implemented as explicit scanners with JS backtracking
semantics: `repeat\((\d+|auto-fill|auto-fit),\s*(.+?)\)` (greedy digits,
greedy-then-shrinking `\s*`, lazy dot-template closed by the first viable
`)`), and the replacement patterns `name\([^)]+\)`. -/

/-- Match a literal character sequence; return the rest on success. -/
def dropLit : List Char → List Char → Option (List Char)
  | [], l => some l
  | _ :: _, [] => none
  | p :: ps, c :: cs => if p = c then dropLit ps cs else none

inductive RepCount where
  | num (digits : List Char)
  | autoFill
  | autoFit

/-- Lazy `(.+?)\)`: accept the first `)` that leaves a non-empty template of
dot-matchable characters. -/
def lazyTemplGo (acc : List Char) : List Char → Option (List Char × List Char)
  | [] => none
  | d :: rest =>
    if d = ')' ∧ acc ≠ [] then some (acc, rest)
    else if isDotCh d then lazyTemplGo (acc ++ [d]) rest
    else none

def lazyTemplate (cs : List Char) : Option (List Char × List Char) := lazyTemplGo [] cs

/-- Greedy `\s*` with backtracking: try the longest whitespace run first,
shrinking until the lazy template can match. -/
def wsBackGo : Nat → List Char → Option (List Char × List Char)
  | 0, cs => lazyTemplate cs
  | w + 1, cs =>
    match lazyTemplate (cs.drop (w + 1)) with
    | some r => some r
    | none => wsBackGo w cs

def wsBacktrack (cs : List Char) : Option (List Char × List Char) :=
  wsBackGo (cs.takeWhile isJsWs).length cs

/-- After a repeat-count alternative: require `,` and match `\s*(.+?)\)`. -/
def afterComma (rc : RepCount) : List Char → Option (RepCount × List Char × List Char)
  | d :: rest =>
    if d = ',' then (wsBacktrack rest).map (fun tr => (rc, tr.1, tr.2)) else none
  | [] => none

/-- Attempt the repeat regex anchored at the current position. -/
def tryRepeatAt (cs : List Char) : Option (RepCount × List Char × List Char) :=
  match dropLit ("repeat(".data) cs with
  | none => none
  | some cs1 =>
    match (if cs1.takeWhile isDigitCh ≠ [] then
        afterComma (RepCount.num (cs1.takeWhile isDigitCh))
          (cs1.drop (cs1.takeWhile isDigitCh).length)
      else none) with
    | some r => some r
    | none =>
      match (dropLit ("auto-fill".data) cs1).bind (afterComma RepCount.autoFill) with
      | some r => some r
      | none => (dropLit ("auto-fit".data) cs1).bind (afterComma RepCount.autoFit)

/-- Leftmost match of the repeat regex: count and template groups. -/
def matchRepeat : List Char → Option (RepCount × List Char)
  | [] => none
  | c :: cs =>
    match tryRepeatAt (c :: cs) with
    | some (rc, t, _) => some (rc, t)
    | none => matchRepeat cs

/-- After a literal `name(`: `[^)]+\)`; returns the rest after `)`. -/
def tryFnTail (cs : List Char) : Option (List Char) :=
  let body := cs.takeWhile (fun c => decide (c ≠ ')'))
  if body ≠ [] then
    match cs.drop body.length with
    | d :: rest => if d = ')' then some rest else none
    | [] => none
  else none

def tryLitParenAt (lit : List Char) (cs : List Char) : Option (List Char) :=
  (dropLit lit cs).bind tryFnTail

/-- The single-shot replacement `val.replace(/repeat\([^)]+\)/, ...)` with
the empty string (first occurrence only). -/
def replaceFirstRepeat : List Char → List Char
  | [] => []
  | c :: cs =>
    match tryLitParenAt ("repeat(".data) (c :: cs) with
    | some rest => rest
    | none => c :: replaceFirstRepeat cs

/-- Global `template.replace(/name\([^)]+\)/g, 'COL')` (fueled scanner; the
fuel bounds the number of scanned positions and is always sufficient). -/
def replaceAllFnGo : Nat → List Char → List Char → List Char
  | 0, _, cs => cs
  | fuel + 1, lit, cs =>
    match cs with
    | [] => []
    | c :: rest =>
      match tryLitParenAt lit (c :: rest) with
      | some r => 'C' :: 'O' :: 'L' :: replaceAllFnGo fuel lit r
      | none => c :: replaceAllFnGo fuel lit rest

def replaceAllFn (lit : List Char) (cs : List Char) : List Char :=
  replaceAllFnGo cs.length lit cs

/-- JS `split(/\s+/)` (keeps the empty leading/trailing pieces the way JS
does; the caller filters them out). -/
def splitWsGo : Nat → List Char → List (List Char)
  | 0, _ => [[]]
  | fuel + 1, l =>
    match l with
    | [] => [[]]
    | c :: rest =>
      if isJsWs c then [] :: splitWsGo fuel (rest.dropWhile isJsWs)
      else
        match splitWsGo fuel rest with
        | [] => [[c]]
        | p :: ps => (c :: p) :: ps

def splitWsJS (l : List Char) : List (List Char) := splitWsGo (l.length + 1) l

/-- `parseInt(count, 10)` on a digit run. -/
def parseIntDigits (ds : List Char) : Nat := digitsVal ds

/-- `countColumnsInTemplate` from the fixed cssParser. -/
def countColumnsInTemplate (template : String) : Nat :=
  if template = "" ∨ jsTrim template = "" then 0
  else
    let cleaned := replaceAllFn ("clamp(".data)
      (replaceAllFn ("fit-content(".data) (replaceAllFn ("minmax(".data) template.data))
    (((splitWsJS cleaned).map String.mk).filter
      (fun piece => decide (piece ≠ "") && decide (piece ≠ "|"))).length

/-- `countGridColumns` from the fixed cssParser; `-1` is the indeterminate
sentinel for `auto-fill`/`auto-fit`. -/
def countGridColumns (value : String) : Int :=
  if value = "" then 0
  else
    let val := jsTrim value
    match matchRepeat val.data with
    | some (RepCount.autoFill, _) => -1
    | some (RepCount.autoFit, _) => -1
    | some (RepCount.num ds, templ) =>
      let repeatCount := parseIntDigits ds
      let templateColumns := countColumnsInTemplate (String.mk templ)
      let remaining := jsTrim (String.mk (replaceFirstRepeat val.data))
      ((repeatCount * templateColumns +
        (if remaining ≠ "" then countColumnsInTemplate remaining else 0) : Nat) : Int)
    | none => (countColumnsInTemplate val : Int)

/-! ## Stylesheet syntax tree

Model of the postcss tree walked by the fixed cssParser: rules with a
selector, at-rules with a name and a parameter string, declarations with a
property and a value.  A mutual inductive keeps every walk structurally
recursive (and so kernel-reducible). -/

mutual
inductive CSSNode where
  | rule (selector : String) (children : CSSList)
  | atrule (name params : String) (children : CSSList)
  | decl (prop value : String)
inductive CSSList where
  | nil
  | cons (head : CSSNode) (tail : CSSList)
end

/-- A parsed stylesheet: the children of the postcss root node. -/
abbrev Stylesheet := CSSList

mutual
/-- `node.walkDecls` document order: every descendant declaration. -/
def declsOfNode : CSSNode → List (String × String)
  | .rule _ ch => declsOfList ch
  | .atrule _ _ ch => declsOfList ch
  | .decl p v => [(p, v)]
def declsOfList : CSSList → List (String × String)
  | .nil => []
  | .cons n t => declsOfNode n ++ declsOfList t
end

mutual
/-- `ast.walkRules` document order, each rule paired with its ancestor
chain (nearest ancestor first). -/
def rulesOfNode (anc : List CSSNode) : CSSNode → List (CSSNode × List CSSNode)
  | .rule sel ch =>
    (CSSNode.rule sel ch, anc) :: rulesOfList (CSSNode.rule sel ch :: anc) ch
  | .atrule n p ch => rulesOfList (CSSNode.atrule n p ch :: anc) ch
  | .decl _ _ => []
def rulesOfList (anc : List CSSNode) : CSSList → List (CSSNode × List CSSNode)
  | .nil => []
  | .cons n t => rulesOfNode anc n ++ rulesOfList anc t
end

/-- The parts collected by `buildSelectorPath`: the while loop walks the
chain from the node to the root, unshifting a part per rule (its trimmed
selector, when truthy) and per at-rule (`@name params`). -/
def pathParts : List CSSNode → List String
  | [] => []
  | CSSNode.rule sel _ :: rest =>
    pathParts rest ++ (if sel ≠ "" then [jsTrim sel] else [])
  | CSSNode.atrule n p _ :: rest => pathParts rest ++ ["@" ++ n ++ " " ++ p]
  | CSSNode.decl _ _ :: rest => pathParts rest

/-- `buildSelectorPath(rule)` over the chain `rule :: ancestors`. -/
def buildSelectorPath (chain : List CSSNode) : String :=
  joinSep " > " (pathParts chain)

/-- The per-rule body of `extractSelectorsWithContext`: the full path of a
rule whose selector is truthy, nothing otherwise. -/
def selKeyFn (rc : CSSNode × List CSSNode) : Option String :=
  match rc.1 with
  | CSSNode.rule sel _ =>
    if sel ≠ "" then some (buildSelectorPath (rc.1 :: rc.2)) else none
  | _ => none

/-- `extractSelectorsWithContext`: the full path of every rule whose
selector is truthy. -/
def extractSelectorsWithContext (root : Stylesheet) : List String :=
  (rulesOfList [] root).filterMap selKeyFn

mutual
/-- Spec-side definition, written from the specification's words alone (for
the refinement comparison of C1): a rule's identity key is every enclosing
part's text — a rule's trimmed selector, an at-rule's `@name params` — joined
by `" > "` walking from the root down to the rule, and the keys are listed in
document order. -/
def specKeysNode (ancestorParts : List String) : CSSNode → List String
  | .rule sel ch =>
    if sel ≠ "" then
      joinSep " > " (ancestorParts ++ [jsTrim sel]) ::
        specKeysList (ancestorParts ++ [jsTrim sel]) ch
    else specKeysList ancestorParts ch
  | .atrule n p ch => specKeysList (ancestorParts ++ ["@" ++ n ++ " " ++ p]) ch
  | .decl _ _ => []
def specKeysList (ancestorParts : List String) : CSSList → List String
  | .nil => []
  | .cons n t => specKeysNode ancestorParts n ++ specKeysList ancestorParts t
end

/-! ## Selector diff -/

/-- Insertion-ordered count map (a JS `Map` of occurrence counts). -/
def bumpKey (m : List (String × Nat)) (k : String) : List (String × Nat) :=
  if m.any (fun p => p.1 = k) then
    m.map (fun p => if p.1 = k then (p.1, p.2 + 1) else p)
  else m ++ [(k, 1)]

def countMap (l : List String) : List (String × Nat) := l.foldl bumpKey []

def hasKey (m : List (String × Nat)) (k : String) : Bool := m.any (fun p => p.1 = k)

/-- Rendered selector record, with the occurrence-count suffix for counts
above one. -/
def selRecord (word : String) (pr : String × Nat) : String :=
  "Property " ++ word ++ ": selector " ++ pr.1 ++
  (if pr.2 > 1 then " (" ++ natDec pr.2 ++ " instances)" else "")

/-- Keys (with counts) present in the first map but missing from the
second. -/
def selDiffPairs (m other : List (String × Nat)) : List (String × Nat) :=
  m.filter (fun pr => !hasKey other pr.1)

/-- `compareSelectorsWithContext` from the fixed cssParser. -/
def compareSelectorsWithContext (oldAST newAST : Option Stylesheet) : List String :=
  let oldSelectors := match oldAST with
    | some a => extractSelectorsWithContext a
    | none => []
  let newSelectors := match newAST with
    | some a => extractSelectorsWithContext a
    | none => []
  let oldMap := countMap oldSelectors
  let newMap := countMap newSelectors
  (selDiffPairs newMap oldMap).map (selRecord "added") ++
  (selDiffPairs oldMap newMap).map (selRecord "removed")

/-! ## Declaration diff -/

/-- Record renderers shared by the declaration handlers. -/
def addedRec (p v : String) (count : Nat) : String :=
  if count > 1 then
    "Property added: " ++ p ++ ": " ++ v ++ " (" ++ natDec count ++ " elements)"
  else "Property added: " ++ p ++ ": " ++ v

def removedRec (p v : String) (count : Nat) : String :=
  if count > 1 then
    "Property removed: " ++ p ++ ": " ++ v ++ " (" ++ natDec count ++ " elements)"
  else "Property removed: " ++ p ++ ": " ++ v

def changedRec (p x y : String) : String :=
  "Property changed: " ++ p ++ " from " ++ x ++ " → " ++ y

/-- Insertion-ordered multimap accumulator (JS object of arrays). -/
def addVal (m : List (String × List String)) (p v : String) :
    List (String × List String) :=
  if m.any (fun q => q.1 = p) then
    m.map (fun q => if q.1 = p then (q.1, q.2 ++ [v]) else q)
  else m ++ [(p, [v])]

/-- `extractDeclarations`: values per property over the whole tree. -/
def extractDeclarations (root : Stylesheet) : List (String × List String) :=
  (declsOfList root).foldl (fun m pv => addVal m pv.1 pv.2) []

/-- `props[prop] || []`. -/
def lookupVals (m : List (String × List String)) (p : String) : List String :=
  match m.find? (fun q => q.1 = p) with
  | some q => q.2
  | none => []

/-- `Array.from(new Set(l))`: first-occurrence deduplication. -/
def dedupFirstGo (seen : List String) : List String → List String
  | [] => []
  | x :: xs =>
    if seen.contains x then dedupFirstGo seen xs
    else x :: dedupFirstGo (seen ++ [x]) xs

def dedupFirst (l : List String) : List String := dedupFirstGo [] l

/-- Occurrences of `v` in `l` (the JS count objects). -/
def countOcc (l : List String) (v : String) : Nat :=
  (l.filter (fun x => x = v)).length

/-- The value families skipped by the main declaration loop (handled in
`analyzeAnimations`). -/
def animFamily (p : String) : Bool :=
  strStarts "animation" p || p = "transition" || p = "transform"

def specialFour : List String := ["position", "visibility", "opacity", "z-index"]

def typographyProps : List String :=
  ["font-family", "font-size", "font-weight", "line-height",
   "letter-spacing", "text-align", "text-transform", "text-decoration"]

/-- Last-wins property map accumulator (`obj[prop] = value`). -/
def setVal (m : List (String × String)) (p v : String) : List (String × String) :=
  if m.any (fun q => q.1 = p) then
    m.map (fun q => if q.1 = p then (q.1, v) else q)
  else m ++ [(p, v)]

def lookupStr (m : List (String × String)) (p : String) : Option String :=
  (m.find? (fun q => q.1 = p)).map (fun q => q.2)

/-- `analyzeFlexboxProperties` over the full (new) tree. -/
def analyzeFlexboxProperties (ast : Option Stylesheet) : List String :=
  match ast with
  | none => []
  | some root =>
    let fp := (declsOfList root).foldl (fun m pv =>
      if strStarts "flex-" pv.1 ||
          (["justify-content", "align-items", "align-content", "gap"].contains pv.1)
      then setVal m pv.1 pv.2 else m) []
    (if lookupStr fp "flex-direction" = some "column" then ["  └─ Column layout"] else []) ++
    (match lookupStr fp "justify-content" with
      | some v => if v ≠ "" then ["  └─ Justify: " ++ v] else []
      | none => []) ++
    (match lookupStr fp "align-items" with
      | some v => if v ≠ "" then ["  └─ Align: " ++ v] else []
      | none => []) ++
    (match lookupStr fp "gap" with
      | some v => if v ≠ "" then ["  └─ Gap: " ++ v] else []
      | none => [])

/-- `analyzeGridProperties` over the full (new) tree. -/
def analyzeGridProperties (ast : Option Stylesheet) : List String :=
  match ast with
  | none => []
  | some root =>
    (declsOfList root).flatMap (fun pv =>
      (if pv.1 = "grid-template-columns" then
        let columns := countGridColumns pv.2
        if columns > 0 then ["  └─ " ++ natDec columns.toNat ++ " column grid"]
        else ["  └─ Grid columns: " ++ pv.2]
      else []) ++
      (if pv.1 = "gap" || pv.1 = "grid-gap" then
        ["  └─ With gap spacing: " ++ pv.2] else []) ++
      (if pv.1 = "grid-template-rows" then
        ["  └─ Row template: " ++ pv.2] else []))

/-- Additions/removals part of `handleDisplayChanges`.  The removal count is
read from the new-side count object, exactly as the source does. -/
def displayAddRem (newVals oldVals newSrc : List String) (ast : Option Stylesheet) :
    List String :=
  (newVals.filter (fun v => !oldVals.contains v)).flatMap (fun value =>
    let count := countOcc newSrc value
    if value = "flex" then "Implemented Flexbox layout" :: analyzeFlexboxProperties ast
    else if value = "grid" then "Implemented CSS Grid layout" :: analyzeGridProperties ast
    else if value = "none" then
      [if count > 1 then
        "⚠ Element hidden via display: none (" ++ natDec count ++ " elements)"
      else "⚠ Element hidden via display: none"]
    else [addedRec "display" value count]) ++
  (oldVals.filter (fun v => !newVals.contains v)).map (fun value =>
    removedRec "display" value (countOcc newSrc value))

/-- `handleDisplayChanges(newVals, oldVals, counts, ast, changes)`. -/
def handleDisplayChanges (newVals oldVals newSrc : List String)
    (ast : Option Stylesheet) : List String :=
  match oldVals, newVals with
  | [x], [y] =>
    if x ≠ y then
      if y = "flex" then
        ("Changed to Flexbox layout (was: " ++ x ++ ")") :: analyzeFlexboxProperties ast
      else if y = "grid" then
        ("Changed to CSS Grid layout (was: " ++ x ++ ")") :: analyzeGridProperties ast
      else ["Property changed: display from " ++ x ++ " → " ++ y]
    else displayAddRem newVals oldVals newSrc ast
  | _, _ => displayAddRem newVals oldVals newSrc ast

/-- Additions/removals part of `handleSpecialProperty`. -/
def specialAddRem (p : String) (newVals oldVals newSrc oldSrc : List String) :
    List String :=
  (newVals.filter (fun v => !oldVals.contains v)).map (fun value =>
    let count := countOcc newSrc value
    if p = "visibility" ∧ value = "hidden" then
      if count > 1 then
        "⚠ Element hidden via visibility: hidden (" ++ natDec count ++ " elements)"
      else "⚠ Element hidden via visibility: hidden"
    else addedRec p value count) ++
  (oldVals.filter (fun v => !newVals.contains v)).map (fun value =>
    removedRec p value (countOcc oldSrc value))

/-- `handleSpecialProperty` (position, visibility, opacity, z-index). -/
def handleSpecialProperty (p : String) (newVals oldVals newSrc oldSrc : List String) :
    List String :=
  match oldVals, newVals with
  | [x], [y] =>
    if x ≠ y then [changedRec p x y]
    else specialAddRem p newVals oldVals newSrc oldSrc
  | _, _ => specialAddRem p newVals oldVals newSrc oldSrc

/-- Case 2/3/4 of the main declaration loop. -/
def declCaseRest (prop : String) (oldVals newVals oldUnique newUnique : List String) :
    List String :=
  if oldUnique.length = 0 ∧ newUnique.length > 0 then
    newUnique.map (fun value => addedRec prop value (countOcc newVals value))
  else if newUnique.length = 0 ∧ oldUnique.length > 0 then
    oldUnique.map (fun value => removedRec prop value (countOcc oldVals value))
  else
    (newUnique.filter (fun v => !oldUnique.contains v)).map (fun value =>
      addedRec prop value (countOcc newVals value)) ++
    (oldUnique.filter (fun v => !newUnique.contains v)).map (fun value =>
      removedRec prop value (countOcc oldVals value))

/-- One iteration of the `allProps.forEach` loop of `compareDeclarations`
(raw values in; the animation family is skipped, normalized values are
compared). -/
def compareDeclProp (newAST : Option Stylesheet) (prop : String)
    (oldRaw newRaw : List String) : List String :=
  if animFamily prop then []
  else
    let oldVals := oldRaw.map (fun v => normalizeValue v prop)
    let newVals := newRaw.map (fun v => normalizeValue v prop)
    let oldUnique := dedupFirst oldVals
    let newUnique := dedupFirst newVals
    if prop = "display" then handleDisplayChanges newUnique oldUnique newVals newAST
    else if specialFour.contains prop then
      handleSpecialProperty prop newUnique oldUnique newVals oldVals
    else
      match oldUnique, newUnique with
      | [x], [y] =>
        if x ≠ y then
          let totalCount := max oldVals.length newVals.length
          [if totalCount > 1 then
            changedRec prop x y ++ " (" ++ natDec totalCount ++ " elements)"
          else changedRec prop x y]
        else declCaseRest prop oldVals newVals oldUnique newUnique
      | _, _ => declCaseRest prop oldVals newVals oldUnique newUnique

/-- Duplicate scan of one rule (`propMap`/`duplicates` loop). -/
def dupScanGo (seen : List (String × String)) (dups : List (String × List String)) :
    List (String × String) → List (String × List String)
  | [] => dups
  | (p, v) :: rest =>
    match seen.find? (fun q => q.1 = p) with
    | some q =>
      if dups.any (fun d => d.1 = p) then
        dupScanGo seen (dups.map (fun d => if d.1 = p then (d.1, d.2 ++ [v]) else d)) rest
      else dupScanGo seen (dups ++ [(p, [q.2, v])]) rest
    | none => dupScanGo (seen ++ [(p, v)]) dups rest

/-- `detectDuplicateProperties`: warning-class records for properties
declared several times with distinct normalized values inside one rule. -/
def detectDuplicateProperties (root : Stylesheet) : List String :=
  (rulesOfList [] root).flatMap (fun rc =>
    let dups := dupScanGo [] [] (declsOfNode rc.1)
    dups.filterMap (fun d =>
      let uniqueValues := dedupFirst (d.2.map (fun v => normalizeValue v d.1))
      if uniqueValues.length > 1 then
        some ("⚠ Property override detected: " ++ d.1 ++ " in " ++
          buildSelectorPath (rc.1 :: rc.2) ++ " (" ++ natDec uniqueValues.length ++
          " different values, last wins)")
      else none))

/-- `extractAnimationProps`. -/
def extractAnimationProps (root : Stylesheet) : List (String × List String) :=
  (declsOfList root).foldl (fun m pv =>
    if animFamily pv.1 then addVal m pv.1 pv.2 else m) []

/-- `extractTypographyProps`. -/
def extractTypographyProps (root : Stylesheet) : List (String × List String) :=
  (declsOfList root).foldl (fun m pv =>
    if typographyProps.contains pv.1 then addVal m pv.1 pv.2 else m) []

/-- Per-property body shared by `analyzeAnimations` and `analyzeTypography`
(raw values, no normalization). -/
def animPropRecords (prop : String) (newVals oldVals : List String) : List String :=
  let newUnique := dedupFirst newVals
  let oldUnique := dedupFirst oldVals
  match oldUnique, newUnique with
  | [x], [y] =>
    if x ≠ y then [changedRec prop x y]
    else
      (newUnique.filter (fun v => !oldUnique.contains v)).map (fun value =>
        addedRec prop value (countOcc newVals value)) ++
      (oldUnique.filter (fun v => !newUnique.contains v)).map (fun value =>
        removedRec prop value (countOcc oldVals value))
  | _, _ =>
    (newUnique.filter (fun v => !oldUnique.contains v)).map (fun value =>
      addedRec prop value (countOcc newVals value)) ++
    (oldUnique.filter (fun v => !newUnique.contains v)).map (fun value =>
      removedRec prop value (countOcc oldVals value))

/-- `analyzeAnimations(newAST, oldAST, changes)`. -/
def analyzeAnimations (newRoot : Stylesheet) (oldAST : Option Stylesheet) :
    List String :=
  let newAnim := extractAnimationProps newRoot
  let oldAnim := match oldAST with
    | some a => extractAnimationProps a
    | none => []
  (dedupFirst (newAnim.map (fun q => q.1) ++ oldAnim.map (fun q => q.1))).flatMap
    (fun prop => animPropRecords prop (lookupVals newAnim prop) (lookupVals oldAnim prop))

/-- `analyzeTypography(newAST, oldAST, changes)`: only properties present in
the new tree are examined. -/
def analyzeTypography (newRoot : Stylesheet) (oldAST : Option Stylesheet) :
    List String :=
  let newTypo := extractTypographyProps newRoot
  let oldTypo := match oldAST with
    | some a => extractTypographyProps a
    | none => []
  (newTypo.map (fun q => q.1)).flatMap (fun prop =>
    animPropRecords prop (lookupVals newTypo prop) (lookupVals oldTypo prop))

/-- `compareDeclarations(oldAST, newAST)` from the fixed cssParser:
duplicate warnings first, then the per-property loop over the union of
keys, then the animation and typography passes. -/
def compareDeclarations (oldAST newAST : Option Stylesheet) : List String :=
  (match newAST with
    | some a => detectDuplicateProperties a
    | none => []) ++
  (let oldProps := match oldAST with
    | some a => extractDeclarations a
    | none => []
   let newProps := match newAST with
    | some a => extractDeclarations a
    | none => []
   (dedupFirst (oldProps.map (fun q => q.1) ++ newProps.map (fun q => q.1))).flatMap
     (fun prop => compareDeclProp newAST prop (lookupVals oldProps prop)
       (lookupVals newProps prop))) ++
  (match newAST with
    | some a => analyzeAnimations a oldAST ++ analyzeTypography a oldAST
    | none => [])

/-! ## Function diff (astParser.js)

`extractFunctions` fills per-function records `{ name, params, async,
complexity, callsAPI, hasReturn }`; `diffFunctions` and `compareFunctions`
consume only those fields, so the embedding takes the records as input. -/

structure ParamInfo where
  name : String
  hasDefault : Bool
deriving DecidableEq

structure FuncInfo where
  name : String
  params : List ParamInfo
  async : Bool
  complexity : Nat
  callsAPI : Bool
  hasReturn : Bool
deriving DecidableEq

/-- `compareFunctions(oldFunc, newFunc)`: async flip, parameter add/remove
by name (only when the joined name strings differ), the complexity report
behind its `new > old + 2` threshold, API-call addition, return-statement
change. -/
def compareFunctions (oldFunc newFunc : FuncInfo) : List String :=
  (if oldFunc.async ≠ newFunc.async then
    ["Changed to " ++ (if newFunc.async then "async" else "sync")] else []) ++
  (if joinSep "," (oldFunc.params.map (fun p => p.name)) ≠
      joinSep "," (newFunc.params.map (fun p => p.name)) then
    (newFunc.params.filter (fun np =>
        !oldFunc.params.any (fun op => op.name = np.name))).map (fun p =>
      "Added parameter: " ++ p.name ++
        (if p.hasDefault then " (with default)" else "")) ++
    (oldFunc.params.filter (fun op =>
        !newFunc.params.any (fun np => np.name = op.name))).map (fun p =>
      "Removed parameter: " ++ p.name)
   else []) ++
  (if newFunc.complexity > oldFunc.complexity + 2 then
    ["Complexity increased (" ++ natDec oldFunc.complexity ++ " → " ++
      natDec newFunc.complexity ++ ")"] else []) ++
  (if !oldFunc.callsAPI && newFunc.callsAPI then ["Added API calls"] else []) ++
  (if oldFunc.hasReturn ≠ newFunc.hasReturn then
    [if newFunc.hasReturn then "Added return statement"
     else "Removed return statement"]
   else [])

/-- `diffFunctions(oldFuncs, newFuncs)`: added functions (with the API and
high-complexity sub-records), a header plus indented details per changed
function found by name (`find` takes the first match), then removed
functions. -/
def diffFunctions (oldFuncs newFuncs : List FuncInfo) : List String :=
  newFuncs.flatMap (fun newFunc =>
    match oldFuncs.find? (fun f => f.name = newFunc.name) with
    | none =>
      ("Added " ++ (if newFunc.async then "async " else "") ++ "function: " ++
        newFunc.name ++ "(" ++
        joinSep ", " (newFunc.params.map (fun p => p.name)) ++ ")") ::
      ((if newFunc.callsAPI then
          ["  └─ Function " ++ newFunc.name ++ " makes API calls"] else []) ++
       (if newFunc.complexity > 5 then
          ["  └─ High complexity (" ++ natDec newFunc.complexity ++ ")"] else []))
    | some oldFunc =>
      let funcChanges := compareFunctions oldFunc newFunc
      if funcChanges.length > 0 then
        ("Function " ++ newFunc.name ++ " changed:") ::
          funcChanges.map (fun c => "  └─ " ++ c)
      else []) ++
  oldFuncs.flatMap (fun oldFunc =>
    if newFuncs.any (fun f => f.name = oldFunc.name) then []
    else ["Removed function: " ++ oldFunc.name])

/-! ## Views of the selector diff used by the symmetry analysis -/

/-- Count map of one side's selector keys (`none` contributes no keys). -/
def selCountMap (x : Option Stylesheet) : List (String × Nat) :=
  countMap (match x with
    | some a => extractSelectorsWithContext a
    | none => [])

/-- The key/count pairs rendered as `added` when diffing old against new. -/
def addedPairs (oldAST newAST : Option Stylesheet) : List (String × Nat) :=
  selDiffPairs (selCountMap newAST) (selCountMap oldAST)

/-- The key/count pairs rendered as `removed` when diffing old against new. -/
def removedPairs (oldAST newAST : Option Stylesheet) : List (String × Nat) :=
  selDiffPairs (selCountMap oldAST) (selCountMap newAST)

/-- The part of a rendered selector record after the `added`/`removed` word:
the key and, for counts above one, the occurrence-count suffix. -/
def selTail (pr : String × Nat) : String :=
  pr.1 ++ (if pr.2 > 1 then " (" ++ natDec pr.2 ++ " instances)" else "")

/-! ## Concrete stylesheets and function records used in the claims -/

/-- `.card { .title { color: red } }`. -/
def cardOld : Stylesheet :=
  CSSList.cons (CSSNode.rule ".card"
    (CSSList.cons (CSSNode.rule ".title"
      (CSSList.cons (CSSNode.decl "color" "red") CSSList.nil))
      CSSList.nil)) CSSList.nil

/-- `.header { .title { color: red } }`. -/
def headerNew : Stylesheet :=
  CSSList.cons (CSSNode.rule ".header"
    (CSSList.cons (CSSNode.rule ".title"
      (CSSList.cons (CSSNode.decl "color" "red") CSSList.nil))
      CSSList.nil)) CSSList.nil

/-- `.a { font-size: 10px }`. -/
def fsOld : Stylesheet :=
  CSSList.cons (CSSNode.rule ".a"
    (CSSList.cons (CSSNode.decl "font-size" "10px") CSSList.nil)) CSSList.nil

/-- `.a { font-size: 12px }`. -/
def fsNew : Stylesheet :=
  CSSList.cons (CSSNode.rule ".a"
    (CSSList.cons (CSSNode.decl "font-size" "12px") CSSList.nil)) CSSList.nil

/-- `.btn { color: red }`. -/
def ccOld : Stylesheet :=
  CSSList.cons (CSSNode.rule ".btn"
    (CSSList.cons (CSSNode.decl "color" "red") CSSList.nil)) CSSList.nil

/-- `.btn { color: blue }`. -/
def ccNew : Stylesheet :=
  CSSList.cons (CSSNode.rule ".btn"
    (CSSList.cons (CSSNode.decl "color" "blue") CSSList.nil)) CSSList.nil

/-- `.a { display: block } .b { display: block }`. -/
def dOld : Stylesheet :=
  CSSList.cons (CSSNode.rule ".a"
    (CSSList.cons (CSSNode.decl "display" "block") CSSList.nil))
    (CSSList.cons (CSSNode.rule ".b"
      (CSSList.cons (CSSNode.decl "display" "block") CSSList.nil)) CSSList.nil)

/-- `.c { color: red }`. -/
def dNew : Stylesheet :=
  CSSList.cons (CSSNode.rule ".c"
    (CSSList.cons (CSSNode.decl "color" "red") CSSList.nil)) CSSList.nil

/-- `function login(username)`, complexity 1, sync, no API call. -/
def loginOld : FuncInfo :=
  { name := "login", params := [{ name := "username", hasDefault := false }],
    async := false, complexity := 1, callsAPI := false, hasReturn := true }

/-- `async function login(username, rememberMe = false)` with a `fetch`
call, complexity 3. -/
def loginNew : FuncInfo :=
  { name := "login",
    params := [{ name := "username", hasDefault := false },
               { name := "rememberMe", hasDefault := true }],
    async := true, complexity := 3, callsAPI := true, hasReturn := true }

/-- The same new-side `login` with complexity 4, above the threshold. -/
def loginNewC4 : FuncInfo :=
  { name := "login",
    params := [{ name := "username", hasDefault := false },
               { name := "rememberMe", hasDefault := true }],
    async := true, complexity := 4, callsAPI := true, hasReturn := true }

/-- `function f(x)`. -/
def fX : FuncInfo :=
  { name := "f", params := [{ name := "x", hasDefault := false }],
    async := false, complexity := 1, callsAPI := false, hasReturn := false }

/-- `function f(y)`: same name as `fX`, different parameter list. -/
def fY : FuncInfo :=
  { name := "f", params := [{ name := "y", hasDefault := false }],
    async := false, complexity := 1, callsAPI := false, hasReturn := false }

/-! ## The analyzer pipeline (changeAnalyzer.js, live version)

Exceptions become `Except`; the external parsers the analyzer dispatches to
(Babel AST extraction, the HTML/CSS/jQuery regex parsers, and the regex
parser `parseJS` would name if it existed) are oracle functions supplied as
a `Parsers` record, while everything the analyzer itself computes is
embedded.  The result entries keep the fields the analyzed claims are about
(file, status, type, changes, parseMethod); the metric fields (risk,
insertions, complexity, churn) are computed per entry from the same inputs
and do not affect them. -/

/-- An apostrophe, kept out of string literals. -/
def sq : String := String.mk [Char.ofNat 39]

/-- `detectFileType(filepath, content)`. -/
def detectFileType (filepath content : String) : String :=
  let ext := lowerStr (String.mk ((splitChar '.' filepath.data).getLastD []))
  if ext = "jsx" ∨ ext = "tsx" then "react"
  else if ext = "ts" then "typescript"
  else if ext = "js" then
    if strHasSub "$(" content || strHasSub "jQuery" content then "jquery"
    else if strHasSub "import React" content ||
        strHasSub ("from \"react\"") content ||
        strHasSub ("from " ++ sq ++ "react" ++ sq) content then "react"
    else "javascript"
  else if ext = "mjs" ∨ ext = "cjs" then "javascript"
  else if ext = "html" ∨ ext = "htm" then "html"
  else if ext = "css" then "css"
  else if ext = "scss" ∨ ext = "sass" then "scss"
  else if ext = "json" then "json"
  else if ext = "md" ∨ ext = "markdown" then "markdown"
  else if ext = "py" then "python"
  else if ext = "java" then "java"
  else if ext = "go" then "go"
  else if ext = "rs" then "rust"
  else "unknown"

/-- `parseGeneric(diff)`: the generic line-count tier. -/
def parseGeneric (diff : String) : List String :=
  let lines := splitLines diff
  let added := (lines.filter (fun l => strStarts "+" l && !strStarts "+++" l)).length
  let removed := (lines.filter (fun l => strStarts "-" l && !strStarts "---" l)).length
  if added > 0 ∧ removed > 0 then
    ["Modified: +" ++ natDec added ++ " -" ++ natDec removed ++ " lines"]
  else if added > 0 then ["Added " ++ natDec added ++ " lines"]
  else if removed > 0 then ["Removed " ++ natDec removed ++ " lines"]
  else []

/-- The names `module.exports` of `src/parser/jsParser.js` actually binds
(its line 423: `module.exports = { parseJSWithAST }`). -/
def jsParserModuleExports : List String := ["parseJSWithAST"]

/-- The analyzer's fallback block for a JavaScript/TypeScript artifact whose
AST pass threw: it calls the `parseJS` binding destructured from
`require('./parser/jsParser')`.  Destructuring a missing export yields
`undefined` and calling it throws, which the inner catch turns into the
generic tier; only if the export existed would the pattern pass
(`patternImpl`, whatever `parseJS` would compute) run. -/
def jsAstFailureFallback (patternImpl : String → String → List String)
    (diffText path : String) : List String × String :=
  if jsParserModuleExports.contains "parseJS" then
    (patternImpl diffText path, "regex-fallback")
  else (parseGeneric diffText, "generic-fallback")

/-- Outcome of the external Babel AST pass (`astParser.analyzeFile`):
success with changes and a method tag, a no-success result (leaving the
initial empty changes in place), or a thrown error. -/
inductive ASTOutcome where
  | ok (changes : List String) (method : String)
  | noSuccess
  | err (msg : String)

/-- The external parsers as oracles: any behaviour, including throwing. -/
structure Parsers where
  ast : String → String → ASTOutcome
  react : String → String → Except String (List String)
  html : String → String → Except String (List String)
  css : String → String → Except String (List String)
  jquery : String → String → Except String (List String)
  jsPattern : String → String → List String

/-- One artifact diff as the analyzer receives it. -/
structure DiffEntry where
  path : String
  newPath : String
  oldPath : String
  status : String
  binary : Bool
  diffText : String
deriving DecidableEq

/-- One result entry (the fields the claims are about). -/
structure ResultEntry where
  file : String
  status : String
  ftype : String
  changes : List String
  parseMethod : String
deriving DecidableEq

/-- The `changes`/`parseMethod` computation for a modified artifact: the
AST-first branch with its two-stage fallback for JS/TS/React, the
per-type parser dispatch with its generic-fallback catch otherwise. -/
def modifiedChanges (P : Parsers) (d : DiffEntry) : List String × String :=
  let fileType := detectFileType d.path d.diffText
  if ["javascript", "typescript", "react"].contains fileType then
    match P.ast d.path d.diffText with
    | ASTOutcome.ok cs m => (cs, m)
    | ASTOutcome.noSuccess => ([], "unknown")
    | ASTOutcome.err _ =>
      if fileType = "react" then
        match P.react d.diffText d.path with
        | Except.ok cs => (cs, "regex-fallback")
        | Except.error _ => (parseGeneric d.diffText, "generic-fallback")
      else jsAstFailureFallback P.jsPattern d.diffText d.path
  else
    match (match fileType with
      | "html" => (P.html d.diffText d.path, "regex")
      | "css" => (P.css d.diffText d.path, "postcss-ast")
      | "scss" => (P.css d.diffText d.path, "postcss-ast")
      | "jquery" => (P.jquery d.diffText d.path, "regex")
      | _ => (Except.ok (parseGeneric d.diffText), "generic")) with
    | (Except.ok cs, m) => (cs, m)
    | (Except.error _, _) => (parseGeneric d.diffText, "generic-fallback")

/-- One iteration of the `for (const diff of diffs)` loop: every branch
pushes exactly one entry. -/
def analyzeOne (P : Parsers) (d : DiffEntry) : ResultEntry :=
  if d.status = "added" then
    { file := d.path, status := "added",
      ftype := detectFileType d.path d.diffText,
      changes := ["File added"], parseMethod := "" }
  else if d.status = "deleted" then
    { file := d.path, status := "deleted",
      ftype := detectFileType d.path d.diffText,
      changes := ["File deleted"], parseMethod := "" }
  else if d.status = "renamed" then
    { file := d.newPath, status := "renamed",
      ftype := detectFileType d.newPath d.diffText,
      changes := ["File renamed from: " ++ d.oldPath], parseMethod := "" }
  else if d.binary then
    { file := d.path, status := "modified", ftype := "binary",
      changes := ["Binary file changed"], parseMethod := "" }
  else
    let pm := modifiedChanges P d
    { file := d.path, status := "modified",
      ftype := detectFileType d.path d.diffText,
      changes := if pm.1.length > 0 then pm.1 else ["Code modified"],
      parseMethod := pm.2 }

/-- `analyzeChanges(diffs, options)`: the per-artifact loop. -/
def analyzeChanges (P : Parsers) (diffs : List DiffEntry) : List ResultEntry :=
  diffs.map (analyzeOne P)

/-- A modified plain-JavaScript artifact whose AST pass will throw. -/
def d8 : DiffEntry :=
  { path := "app.js", newPath := "app.js", oldPath := "app.js",
    status := "modified", binary := false,
    diffText := "+function handleClick() \x7b\x7d\n-old()" }

/-- Oracles for the `d8` run: the AST pass throws, and the pattern pass —
were it reachable — would report the added named function. -/
def P8 : Parsers :=
  { ast := fun _ _ => ASTOutcome.err "SyntaxError",
    react := fun _ _ => Except.ok [],
    html := fun _ _ => Except.ok [],
    css := fun _ _ => Except.ok [],
    jquery := fun _ _ => Except.ok [],
    jsPattern := fun _ _ => ["Added function: handleClick"] }

/-! ## The stylesheet entry point (parseCSS and its diff-text fallback) -/

/-- JS regex `\w` plus the hyphen: the `[\w-]` class. -/
def isWordHyphen (c : Char) : Bool :=
  (65 ≤ c.toNat && c.toNat ≤ 90) || (97 ≤ c.toNat && c.toNat ≤ 122) ||
  (48 ≤ c.toNat && c.toNat ≤ 57) || c = '_' || c = '-'

/-- Global scan of `([\w-]+)\s*:\s*([^;{]+)` returning each match's first
group (all the later code uses): at each position, a maximal `[\w-]` run,
optional whitespace, a colon, and at least one character other than `;` or
`{` (the whole maximal such run is consumed before scanning resumes). -/
def propScanGo : Nat → List Char → List String
  | 0, _ => []
  | _, [] => []
  | fuel + 1, c :: rest =>
    if isWordHyphen c then
      let w := c :: rest.takeWhile isWordHyphen
      let afterW := rest.dropWhile isWordHyphen
      match afterW.dropWhile isJsWs with
      | ':' :: tail =>
        let r := tail.takeWhile (fun ch => !(ch = ';' || ch = Char.ofNat 123))
        if r.length > 0 then String.mk w :: propScanGo fuel (tail.drop r.length)
        else propScanGo fuel rest
      | _ => propScanGo fuel rest
    else propScanGo fuel rest

/-- The `+`-lines of the diff, stripped and trimmed, joined by newlines. -/
def cssAddedContent (diffContent : String) : String :=
  joinSep "\n"
    (((splitLines diffContent).filter
      (fun l => strStarts "+" l && !strStarts "+++" l)).map
      (fun l => jsTrim (String.mk (l.data.drop 1))))

/-- The property-report part of `parseCSSWithDiffFallback`. -/
def fallbackMain (addedContent : String) : List String :=
  let props := propScanGo (addedContent.data.length + 1) addedContent.data
  if props.length > 0 then
    let properties := dedupFirst
      ((props.map (fun p => jsTrim p)).filter
        (fun p => !strStarts "@" p && p.length > 0))
    if properties.length > 0 then
      if properties.length ≤ 5 then
        properties.map (fun p => "Property modified: " ++ p)
      else
        ["Component visual changes detected (" ++ natDec properties.length ++
          " properties modified)"]
    else ["Component visual changes detected"]
  else ["Component visual changes detected"]

/-- The special-case checks of `parseCSSWithDiffFallback`. -/
def fallbackSpecial (addedContent : String) : List String :=
  (if strHasSub "@media" addedContent then
    ["Responsive design changes detected"] else []) ++
  (if strHasSub "@keyframes" addedContent then
    ["Animation changes detected"] else []) ++
  (if strHasSub "display:" addedContent || strHasSub "display :" addedContent then
    (if strHasSub "flex" addedContent then
      ["Possible Flexbox layout changes"] else []) ++
    (if strHasSub "grid" addedContent then
      ["Possible Grid layout changes"] else [])
   else [])

/-- `parseCSSWithDiffFallback(diffContent, filepath)`: a total function of
the diff text (string operations and regex scans only; nothing in its body
can throw for a string input). -/
def parseCSSWithDiffFallback (diffContent : String) : List String :=
  let changes := fallbackMain (cssAddedContent diffContent) ++
    fallbackSpecial (cssAddedContent diffContent)
  if changes.length > 0 then changes else ["Component visual changes detected"]

/-- `parseCSS(diff, filepath)` for a string diff: empty diff short-circuits
to `[]`; otherwise the external full-file AST pass (an oracle: its result
list, or a thrown error) is tried, an empty result list is turned into a
throw, and every throw falls to the embedded diff-text fallback. -/
def parseCSS (fullAST : Except String (List String)) (diff : String) :
    List String :=
  if diff = "" then []
  else
    match fullAST with
    | Except.ok changes =>
      if changes.length > 0 then changes else parseCSSWithDiffFallback diff
    | Except.error _ => parseCSSWithDiffFallback diff

/-- A one-line CSS diff adding `.a { color: red; }`. -/
def cssSampleDiff : String := "+.a \x7b color: red; \x7d"

/-! ## Character and string lemmas -/

theorem charToNat_ofNat_lt (n : Nat) (h : n < 0xd800) : (Char.ofNat n).toNat = n := by
  have hv : Nat.isValidChar n := Or.inl h
  have h3 : n < 2 ^ 32 := by omega
  simp [Char.ofNat, hv, Char.ofNatAux, Char.toNat, UInt32.toNat, Nat.mod_eq_of_lt h3]

theorem jsLower_eq_of_upper {c : Char} (h : 65 ≤ c.toNat ∧ c.toNat ≤ 90) :
    jsLower c = Char.ofNat (c.toNat + 32) := by
  unfold jsLower
  rw [if_pos]
  simpa using h

theorem jsLower_eq_of_not_upper {c : Char} (h : ¬ (65 ≤ c.toNat ∧ c.toNat ≤ 90)) :
    jsLower c = c := by
  unfold jsLower
  rw [if_neg]
  simpa using h

theorem jsLower_idem (c : Char) : jsLower (jsLower c) = jsLower c := by
  by_cases h : 65 ≤ c.toNat ∧ c.toNat ≤ 90
  · rw [jsLower_eq_of_upper h]
    apply jsLower_eq_of_not_upper
    rw [charToNat_ofNat_lt _ (by omega)]
    omega
  · rw [jsLower_eq_of_not_upper h, jsLower_eq_of_not_upper h]

theorem isJsWs_jsLower (c : Char) : isJsWs (jsLower c) = isJsWs c := by
  by_cases h : 65 ≤ c.toNat ∧ c.toNat ≤ 90
  · have h32 : (jsLower c).toNat = c.toNat + 32 := by
      rw [jsLower_eq_of_upper h]
      exact charToNat_ofNat_lt _ (by omega)
    rw [Bool.eq_iff_iff]
    simp only [isJsWs, h32, Bool.or_eq_true, decide_eq_true_eq]
    omega
  · rw [jsLower_eq_of_not_upper h]

theorem map_inert {f : Char → Char} {l : List Char} (h : ∀ c ∈ l, f c = c) :
    l.map f = l := by
  induction l with
  | nil => rfl
  | cons c cs ih =>
    simp only [List.map_cons, h c (by simp)]
    rw [ih (fun d hd => h d (by simp [hd]))]

theorem dropWhile_all_false {p : Char → Bool} {l : List Char}
    (h : ∀ c ∈ l, p c = false) : l.dropWhile p = l := by
  cases l with
  | nil => rfl
  | cons c cs => simp [List.dropWhile, h c (by simp)]

theorem dropWhile_head_false (p : Char → Bool) (l : List Char) :
    ∀ c, (l.dropWhile p).head? = some c → p c = false := by
  induction l with
  | nil => intro c hc; simp [List.dropWhile] at hc
  | cons d ds ih =>
    intro c hc
    by_cases hp : p d
    · exact ih c (by simpa [List.dropWhile, hp] using hc)
    · simp only [List.dropWhile, hp, List.head?] at hc
      cases hc
      simpa using hp

theorem dropWhile_idem (p : Char → Bool) (l : List Char) :
    (l.dropWhile p).dropWhile p = l.dropWhile p := by
  cases hh : (l.dropWhile p).head? with
  | none =>
    have : l.dropWhile p = [] := by
      cases h : l.dropWhile p with
      | nil => rfl
      | cons a b => rw [h] at hh; simp at hh
    simp [this]
  | some c =>
    have hc := dropWhile_head_false p l c hh
    cases h : l.dropWhile p with
    | nil => rfl
    | cons a b =>
      rw [h] at hh
      simp only [List.head?] at hh
      cases hh
      simp [List.dropWhile, hc]

theorem dropWhile_getLast? (p : Char → Bool) (l : List Char)
    (h : l.dropWhile p ≠ []) : (l.dropWhile p).getLast? = l.getLast? := by
  induction l with
  | nil => simp [List.dropWhile] at h
  | cons d ds ih =>
    by_cases hp : p d
    · have hds : ds.dropWhile p ≠ [] := by simpa [List.dropWhile, hp] using h
      have hne : ds ≠ [] := by
        intro he; rw [he] at hds; simp [List.dropWhile] at hds
      rw [show (d :: ds).dropWhile p = ds.dropWhile p by simp [List.dropWhile, hp],
        ih hds]
      cases ds with
      | nil => exact absurd rfl hne
      | cons a b => simp [List.getLast?_cons_cons]
    · simp [List.dropWhile, hp]

theorem trimL_head_false (l : List Char) :
    ∀ c, (trimL l).head? = some c → isJsWs c = false := by
  intro c hc
  unfold trimL at hc
  rw [List.head?_reverse] at hc
  have hne : (((l.dropWhile isJsWs).reverse).dropWhile isJsWs) ≠ [] := by
    intro he; rw [he] at hc; simp at hc
  rw [dropWhile_getLast? _ _ hne, List.getLast?_reverse] at hc
  exact dropWhile_head_false isJsWs l c hc

theorem trimL_idem (l : List Char) : trimL (trimL l) = trimL l := by
  have h1 : (trimL l).dropWhile isJsWs = trimL l := by
    cases hh : (trimL l).head? with
    | none =>
      cases h : trimL l with
      | nil => simp [h]
      | cons a b => rw [h] at hh; simp at hh
    | some c =>
      have hc := trimL_head_false l c hh
      cases h : trimL l with
      | nil => rfl
      | cons a b =>
        rw [h] at hh
        simp only [List.head?] at hh
        cases hh
        simp [List.dropWhile, hc]
  show (((trimL l).dropWhile isJsWs).reverse.dropWhile isJsWs).reverse = trimL l
  rw [h1]
  show (((((l.dropWhile isJsWs).reverse.dropWhile isJsWs).reverse).reverse).dropWhile
    isJsWs).reverse = trimL l
  rw [List.reverse_reverse, dropWhile_idem]
  rfl

theorem trimL_all_inert {l : List Char} (h : ∀ c ∈ l, isJsWs c = false) :
    trimL l = l := by
  unfold trimL
  rw [dropWhile_all_false h, dropWhile_all_false (by intro c hc; exact h c (by simpa using hc)),
    List.reverse_reverse]

theorem trimL_lowerL_comm (l : List Char) : trimL (lowerL l) = lowerL (trimL l) := by
  unfold trimL lowerL
  rw [List.dropWhile_map, show (isJsWs ∘ jsLower) = isJsWs from funext isJsWs_jsLower,
    ← List.map_reverse, List.dropWhile_map,
    show (isJsWs ∘ jsLower) = isJsWs from funext isJsWs_jsLower, ← List.map_reverse]

theorem lowerL_idem (l : List Char) : lowerL (lowerL l) = lowerL l := by
  unfold lowerL
  rw [List.map_map, show (jsLower ∘ jsLower) = jsLower from funext jsLower_idem]

theorem lowtrim_data (s : String) : (lowtrim s).data = lowerL (trimL s.data) := rfl

theorem string_eta (s : String) : String.mk s.data = s := rfl

theorem lowtrim_idem (s : String) : lowtrim (lowtrim s) = lowtrim s := by
  unfold lowtrim
  show String.mk (lowerL (trimL (lowerL (trimL s.data)))) = _
  rw [trimL_lowerL_comm, trimL_idem, lowerL_idem]

/-- A character list is inert when its members are whitespace-free and fixed
by lowercasing; `lowtrim` is the identity there. -/
theorem lowtrim_of_inert {l : List Char}
    (h : ∀ c ∈ l, isJsWs c = false ∧ jsLower c = c) :
    lowtrim (String.mk l) = String.mk l := by
  unfold lowtrim
  show String.mk (lowerL (trimL l)) = _
  rw [trimL_all_inert (fun c hc => (h c hc).1)]
  unfold lowerL
  rw [map_inert (fun c hc => (h c hc).2)]

theorem lowtrim_chars_fixed (s : String) :
    ∀ c ∈ (lowtrim s).data, jsLower c = c := by
  intro c hc
  rw [lowtrim_data] at hc
  unfold lowerL at hc
  obtain ⟨d, _, rfl⟩ := List.mem_map.mp hc
  exact jsLower_idem d

/-! ## Decimal digit lemmas -/

theorem digitChar_toNat {n : Nat} (h : n < 10) : (digitChar n).toNat = 48 + n :=
  charToNat_ofNat_lt _ (by omega)

theorem isDigitCh_digitChar {n : Nat} (h : n < 10) : isDigitCh (digitChar n) = true := by
  simp only [isDigitCh, digitChar_toNat h, Bool.and_eq_true, decide_eq_true_eq]
  omega

theorem natDecGo_append (fuel : Nat) : ∀ (n : Nat) (acc : List Char),
    natDecGo fuel n acc = natDecGo fuel n [] ++ acc := by
  induction fuel with
  | zero => intro n acc; rfl
  | succ f ih =>
    intro n acc
    unfold natDecGo
    by_cases h : n < 10
    · simp [h]
    · rw [if_neg h, if_neg h, ih (n / 10) (digitChar (n % 10) :: acc),
        ih (n / 10) [digitChar (n % 10)], List.append_assoc]
      rfl

theorem natDecGo_fuel_irrel : ∀ (f1 f2 n : Nat), n < f1 → n < f2 →
    natDecGo f1 n [] = natDecGo f2 n [] := by
  intro f1
  induction f1 with
  | zero => intro f2 n h1; omega
  | succ f ih =>
    intro f2 n h1 h2
    cases f2 with
    | zero => omega
    | succ g =>
      unfold natDecGo
      by_cases h : n < 10
      · simp [h]
      · rw [if_neg h, if_neg h, natDecGo_append f, natDecGo_append g,
          ih g (n / 10) (by omega) (by omega)]

theorem natDecL_lt10 {n : Nat} (h : n < 10) : natDecL n = [digitChar n] := by
  unfold natDecL natDecGo
  simp [h]

theorem natDecL_ge10 {n : Nat} (h : ¬ n < 10) :
    natDecL n = natDecL (n / 10) ++ [digitChar (n % 10)] := by
  have step : natDecGo (n + 1) n [] = natDecGo n (n / 10) [digitChar (n % 10)] := by
    show (if n < 10 then digitChar n :: ([] : List Char)
      else natDecGo n (n / 10) (digitChar (n % 10) :: [])) = _
    rw [if_neg h]
  show natDecGo (n + 1) n [] = natDecGo (n / 10 + 1) (n / 10) [] ++ [digitChar (n % 10)]
  rw [step, natDecGo_append n,
    natDecGo_fuel_irrel n (n / 10 + 1) (n / 10) (by omega) (by omega)]

theorem natDecL_ne_nil (n : Nat) : natDecL n ≠ [] := by
  by_cases h : n < 10
  · simp [natDecL_lt10 h]
  · simp [natDecL_ge10 h]

theorem natDecL_digits (n : Nat) : ∀ c ∈ natDecL n, isDigitCh c = true := by
  induction n using Nat.strong_induction_on with
  | _ n ih =>
    by_cases h : n < 10
    · rw [natDecL_lt10 h]
      intro c hc
      simp only [List.mem_singleton] at hc
      subst hc
      exact isDigitCh_digitChar h
    · rw [natDecL_ge10 h]
      intro c hc
      rcases List.mem_append.mp hc with h1 | h1
      · exact ih (n / 10) (by omega) c h1
      · simp only [List.mem_singleton] at h1
        subst h1
        exact isDigitCh_digitChar (by omega)

theorem digitsVal_from (l : List Char) : ∀ (a : Nat),
    l.foldl (fun a c => a * 10 + (c.toNat - 48)) a =
      a * 10 ^ l.length + digitsVal l := by
  induction l with
  | nil => intro a; simp [digitsVal]
  | cons c cs ih =>
    intro a
    have hd : digitsVal (c :: cs) = (c.toNat - 48) * 10 ^ cs.length + digitsVal cs := by
      show cs.foldl _ (0 * 10 + (c.toNat - 48)) = _
      rw [ih (0 * 10 + (c.toNat - 48))]
      ring
    show cs.foldl _ (a * 10 + (c.toNat - 48)) = _
    rw [ih (a * 10 + (c.toNat - 48)), hd, List.length_cons]
    ring

theorem digitsVal_append (xs ys : List Char) :
    digitsVal (xs ++ ys) = digitsVal xs * 10 ^ ys.length + digitsVal ys := by
  show (xs ++ ys).foldl _ 0 = _
  rw [List.foldl_append]
  exact digitsVal_from ys (xs.foldl _ 0)

theorem digitsVal_natDecL (n : Nat) : digitsVal (natDecL n) = n := by
  induction n using Nat.strong_induction_on with
  | _ n ih =>
    by_cases h : n < 10
    · rw [natDecL_lt10 h]
      simp [digitsVal, digitChar_toNat h]
    · rw [natDecL_ge10 h, digitsVal_append, ih (n / 10) (by omega)]
      simp [digitsVal, digitChar_toNat (show n % 10 < 10 by omega)]
      omega

theorem pad2_spec {m : Nat} (h : m < 100) :
    pad2 m = [digitChar (m / 10), digitChar (m % 10)] := by
  unfold pad2
  by_cases h10 : m < 10
  · rw [if_pos h10, natDecL_lt10 h10]
    have : m / 10 = 0 := by omega
    have hm : m % 10 = m := by omega
    rw [this, hm]
    rfl
  · rw [if_neg h10, natDecL_ge10 h10, natDecL_lt10 (show m / 10 < 10 by omega)]
    rfl

theorem pad2_digits {m : Nat} (h : m < 100) : ∀ c ∈ pad2 m, isDigitCh c = true := by
  rw [pad2_spec h]
  intro c hc
  simp only [List.mem_cons, List.not_mem_nil, or_false] at hc
  rcases hc with rfl | rfl
  · exact isDigitCh_digitChar (by omega)
  · exact isDigitCh_digitChar (by omega)

theorem pad2_length {m : Nat} (h : m < 100) : (pad2 m).length = 2 := by
  rw [pad2_spec h]; rfl

theorem digitsVal_pad2 {m : Nat} (h : m < 100) : digitsVal (pad2 m) = m := by
  rw [pad2_spec h]
  simp [digitsVal, digitChar_toNat (show m / 10 < 10 by omega),
    digitChar_toNat (show m % 10 < 10 by omega)]
  omega

/-! ## Shape lemmas for the normalizer branch tests -/

theorem ne_empty_of_data_cons {s : String} {c : Char} {cs : List Char}
    (h : s.data = c :: cs) : s ≠ "" := by
  intro he
  subst he
  rw [show ("" : String).data = [] from rfl] at h
  exact List.noConfusion h

theorem digit_not_ws {c : Char} (h : isDigitCh c = true) : isJsWs c = false := by
  have ht : 48 ≤ c.toNat ∧ c.toNat ≤ 57 := by
    simpa [isDigitCh] using h
  simp only [isJsWs, Bool.or_eq_false_iff, decide_eq_false_iff_not]
  omega

theorem digit_fixed {c : Char} (h : isDigitCh c = true) : jsLower c = c := by
  have ht : 48 ≤ c.toNat ∧ c.toNat ≤ 57 := by
    simpa [isDigitCh] using h
  exact jsLower_eq_of_not_upper (by omega)

theorem hexDig_not_ws {c : Char} (h : isHexDigCI c = true) : isJsWs c = false := by
  have ht : ((48 ≤ c.toNat ∧ c.toNat ≤ 57) ∨ (97 ≤ c.toNat ∧ c.toNat ≤ 102)) ∨
      (65 ≤ c.toNat ∧ c.toNat ≤ 70) := by
    simpa [isHexDigCI, isDigitCh] using h
  simp only [isJsWs, Bool.or_eq_false_iff, decide_eq_false_iff_not]
  omega

theorem isHex3_shape {l : List Char} (h : isHex3 l = true) :
    ∃ a b c, l = ['#', a, b, c] ∧ isHexDigCI a = true ∧ isHexDigCI b = true ∧
      isHexDigCI c = true := by
  rcases l with _ | ⟨c1, _ | ⟨c2, _ | ⟨c3, _ | ⟨c4, _ | ⟨c5, rest⟩⟩⟩⟩⟩ <;>
    simp only [isHex3] at h
  · exact absurd h (by simp)
  · exact absurd h (by simp)
  · exact absurd h (by simp)
  · exact absurd h (by simp)
  · obtain ⟨⟨⟨h1, h2⟩, h3⟩, h4⟩ := by simpa using h
    exact ⟨c2, c3, c4, by rw [h1], h2, h3, h4⟩
  · exact absurd h (by simp)

theorem isHex6_shape {l : List Char} (h : isHex6 l = true) :
    ∃ a b c d e f, l = ['#', a, b, c, d, e, f] := by
  rcases l with _ | ⟨c1, _ | ⟨c2, _ | ⟨c3, _ | ⟨c4, _ | ⟨c5, _ | ⟨c6, _ | ⟨c7, _ | ⟨c8, r⟩⟩⟩⟩⟩⟩⟩⟩
  · simp [isHex6] at h
  · simp [isHex6] at h
  · simp [isHex6] at h
  · simp [isHex6] at h
  · simp [isHex6] at h
  · simp [isHex6] at h
  · simp [isHex6] at h
  · simp only [isHex6, Bool.and_eq_true, decide_eq_true_eq] at h
    exact ⟨c2, c3, c4, c5, c6, c7, by rw [h.1.1.1.1.1.1]⟩
  · simp [isHex6] at h

theorem isZeroL_shape {l : List Char} (h : isZeroL l = true) :
    ∃ u, l = '0' :: u := by
  rcases l with _ | ⟨c1, u⟩
  · simp [isZeroL] at h
  · simp only [isZeroL, Bool.and_eq_true, decide_eq_true_eq] at h
    exact ⟨u, by rw [h.1]⟩

theorem isDecimalL_head {l : List Char} (h : isDecimalL l = true) :
    ∃ c cs, l = c :: cs ∧ (isDigitCh c = true ∨ c = '.') := by
  rcases l with _ | ⟨c, cs⟩
  · simp [isDecimalL] at h
  · refine ⟨c, cs, rfl, ?_⟩
    by_cases hd : isDigitCh c = true
    · exact Or.inl hd
    · right
      have hd2 : isDigitCh c = false := by simpa using hd
      simp only [isDecimalL, List.takeWhile_cons, hd2, Bool.false_eq_true, if_false,
        List.length_nil, List.drop_zero, Bool.and_eq_true, decide_eq_true_eq] at h
      exact h.1.1

theorem takeWhile_all_then_stop {p : Char → Bool} {xs : List Char} {y : Char}
    (ys : List Char) (hxs : ∀ c ∈ xs, p c = true) (hy : p y = false) :
    (xs ++ y :: ys).takeWhile p = xs := by
  induction xs with
  | nil => simp [List.takeWhile_cons, hy]
  | cons c cs ih =>
    simp only [List.cons_append, List.takeWhile_cons, hxs c (by simp), if_true]
    rw [ih (fun d hd => hxs d (by simp [hd]))]

theorem isDecimalL_parts {xs fs : List Char} (hxs : ∀ c ∈ xs, isDigitCh c = true)
    (hfs : fs ≠ []) (hfsd : ∀ c ∈ fs, isDigitCh c = true) :
    isDecimalL (xs ++ '.' :: fs) = true := by
  have hdot : isDigitCh '.' = false := by decide
  unfold isDecimalL
  rw [takeWhile_all_then_stop fs hxs hdot, List.drop_left]
  simp [hfs, List.all_eq_true.mpr hfsd]

theorem parseDecL_parts {xs fs : List Char} (hxs : ∀ c ∈ xs, isDigitCh c = true) :
    parseDecL (xs ++ '.' :: fs) = (digitsVal (xs ++ fs), fs.length) := by
  have hdot : isDigitCh '.' = false := by decide
  unfold parseDecL
  rw [takeWhile_all_then_stop fs hxs hdot, List.drop_left]

/-! ## Idempotence of the normalizer -/

/-- One evaluation step of `normalizeValue` on a value that is already its
own fixed point and needs no trimming or lowercasing. -/
theorem normalizeValue_of_fix {o : String} (p : String)
    (h : o ≠ "" → lowtrim o = o ∧ nvBody o = o) :
    normalizeValue o p = o := by
  by_cases he : o = ""
  · simp [normalizeValue, he]
  · rw [normalizeValue, if_neg he, (h he).1, (h he).2]

theorem nvBody_hexExpand_fix {a b c : Char} (p : String)
    (hfa : jsLower a = a) (hfb : jsLower b = b) (hfc : jsLower c = c)
    (hha : isHexDigCI a = true) (hhb : isHexDigCI b = true) (hhc : isHexDigCI c = true) :
    normalizeValue (String.mk ['#', a, a, b, b, c, c]) p =
      String.mk ['#', a, a, b, b, c, c] := by
  apply normalizeValue_of_fix
  intro _
  have hinert : ∀ d ∈ ['#', a, a, b, b, c, c], isJsWs d = false ∧ jsLower d = d := by
    intro d hd
    simp only [List.mem_cons, List.not_mem_nil, or_false] at hd
    rcases hd with rfl | rfl | rfl | rfl | rfl | rfl | rfl
    · exact ⟨by decide, by decide⟩
    · exact ⟨hexDig_not_ws hha, hfa⟩
    · exact ⟨hexDig_not_ws hha, hfa⟩
    · exact ⟨hexDig_not_ws hhb, hfb⟩
    · exact ⟨hexDig_not_ws hhb, hfb⟩
    · exact ⟨hexDig_not_ws hhc, hfc⟩
    · exact ⟨hexDig_not_ws hhc, hfc⟩
  refine ⟨lowtrim_of_inert hinert, ?_⟩
  have h3 : isHex3 (String.mk ['#', a, a, b, b, c, c]).data = false := rfl
  have h6 : isHex6 (String.mk ['#', a, a, b, b, c, c]).data = true := by
    simp [isHex6, hha, hhb, hhc]
  rw [nvBody, h3, if_neg (by simp), h6, if_pos rfl]
  show String.mk (lowerL ['#', a, a, b, b, c, c]) = _
  unfold lowerL
  rw [map_inert (fun d hd => (hinert d hd).2)]

theorem nvBody_decimal_fix (p : String) (q : Nat × Nat) :
    normalizeValue (String.mk (toFixed2 q)) p = String.mk (toFixed2 q) := by
  apply normalizeValue_of_fix
  intro _
  obtain ⟨n, hto⟩ : ∃ n, toFixed2 q =
      natDecL (n / 100) ++ '.' :: pad2 (n % 100) := ⟨_, rfl⟩
  have hmod : n % 100 < 100 := Nat.mod_lt _ (by omega)
  have hint : ∀ d ∈ toFixed2 q, isJsWs d = false ∧ jsLower d = d := by
    intro d hd
    rw [hto] at hd
    rcases List.mem_append.mp hd with h1 | h1
    · have := natDecL_digits (n / 100) d h1
      exact ⟨digit_not_ws this, digit_fixed this⟩
    · simp only [List.mem_cons] at h1
      rcases h1 with rfl | h1
      · exact ⟨by decide, by decide⟩
      · have := pad2_digits hmod d h1
        exact ⟨digit_not_ws this, digit_fixed this⟩
  refine ⟨lowtrim_of_inert hint, ?_⟩
  -- head of the rendered decimal is a digit
  obtain ⟨d0, ds0, hnd⟩ : ∃ d0 ds0, natDecL (n / 100) = d0 :: ds0 := by
    cases hx : natDecL (n / 100) with
    | nil => exact absurd hx (natDecL_ne_nil _)
    | cons d0 ds0 => exact ⟨d0, ds0, rfl⟩
  have hd0 : isDigitCh d0 = true := natDecL_digits (n / 100) d0 (by rw [hnd]; simp)
  have hdata : (String.mk (toFixed2 q)).data = toFixed2 q := rfl
  have hcons : toFixed2 q = d0 :: (ds0 ++ '.' :: pad2 (n % 100)) := by
    rw [hto, hnd]; rfl
  have h3 : isHex3 (toFixed2 q) = false := by
    cases hx : isHex3 (toFixed2 q) with
    | false => rfl
    | true =>
      obtain ⟨a, b, c, hsh, _⟩ := isHex3_shape hx
      rw [hcons] at hsh
      have : d0 = '#' := (List.cons.injEq _ _ _ _).mp hsh |>.1
      rw [this] at hd0
      exact absurd hd0 (by decide)
  have h6 : isHex6 (toFixed2 q) = false := by
    cases hx : isHex6 (toFixed2 q) with
    | false => rfl
    | true =>
      obtain ⟨a, b, c, d, e, f, hsh⟩ := isHex6_shape hx
      rw [hcons] at hsh
      have : d0 = '#' := (List.cons.injEq _ _ _ _).mp hsh |>.1
      rw [this] at hd0
      exact absurd hd0 (by decide)
  have hdec : isDecimalL (toFixed2 q) = true := by
    rw [hto]
    exact isDecimalL_parts (natDecL_digits _) (by simp [pad2_spec hmod]) (pad2_digits hmod)
  have hparse : parseDecL (toFixed2 q) = (n, 2) := by
    rw [hto, parseDecL_parts (natDecL_digits _), pad2_length hmod,
      digitsVal_append, pad2_length hmod, digitsVal_natDecL, digitsVal_pad2 hmod]
    have : n / 100 * 10 ^ 2 + n % 100 = n := by omega
    rw [this]
  rw [nvBody, hdata, h3, if_neg (by simp), h6, if_neg (by simp), hdec, if_pos rfl,
    hparse]
  show String.mk (toFixed2 (n, 2)) = _
  have : toFixed2 (n, 2) = toFixed2 q := by
    rw [hto]
    show natDecL ((200 * n + 10 ^ 2) / (2 * 10 ^ 2) / 100) ++
      '.' :: pad2 ((200 * n + 10 ^ 2) / (2 * 10 ^ 2) % 100) = _
    have hn : (200 * n + 10 ^ 2) / (2 * 10 ^ 2) = n := by omega
    rw [hn]
  rw [this]

theorem nvBody_rgb_fix {rest : List Char} (p : String)
    (hfx : ∀ c ∈ 'r' :: 'g' :: 'b' :: rest, jsLower c = c) :
    normalizeValue (String.mk (('r' :: 'g' :: 'b' :: rest).filter
      (fun c => !isJsWs c))) p =
      String.mk (('r' :: 'g' :: 'b' :: rest).filter (fun c => !isJsWs c)) := by
  apply normalizeValue_of_fix
  intro _
  set o : List Char := ('r' :: 'g' :: 'b' :: rest).filter (fun c => !isJsWs c) with ho
  have hoc : o = 'r' :: 'g' :: 'b' :: rest.filter (fun c => !isJsWs c) := by
    rw [ho]
    simp [List.filter_cons, show isJsWs 'r' = false from by decide,
      show isJsWs 'g' = false from by decide, show isJsWs 'b' = false from by decide]
  have hinert : ∀ d ∈ o, isJsWs d = false ∧ jsLower d = d := by
    intro d hd
    refine ⟨by simpa using List.of_mem_filter hd, hfx d (List.mem_of_mem_filter hd)⟩
  refine ⟨lowtrim_of_inert hinert, ?_⟩
  have hhead : ∀ {z : Char} {zs : List Char}, o = z :: zs → z = 'r' := by
    intro z zs hz
    rw [hoc] at hz
    exact ((List.cons.injEq _ _ _ _).mp hz).1.symm
  have h3 : isHex3 o = false := by
    cases hx : isHex3 o with
    | false => rfl
    | true =>
      obtain ⟨a, b, c, hsh, _⟩ := isHex3_shape hx
      exact absurd (hhead hsh) (by decide)
  have h6 : isHex6 o = false := by
    cases hx : isHex6 o with
    | false => rfl
    | true =>
      obtain ⟨a, b, c, d, e, f, hsh⟩ := isHex6_shape hx
      exact absurd (hhead hsh) (by decide)
  have hdec : isDecimalL o = false := by
    cases hx : isDecimalL o with
    | false => rfl
    | true =>
      obtain ⟨c, cs, hsh, hc⟩ := isDecimalL_head hx
      rw [hhead hsh] at hc
      rcases hc with hc | hc
      · exact absurd hc (by decide)
      · exact absurd hc (by decide)
  have hz : isZeroL o = false := by
    cases hx : isZeroL o with
    | false => rfl
    | true =>
      obtain ⟨u, hsh⟩ := isZeroL_shape hx
      exact absurd (hhead hsh) (by decide)
  have hr : strStarts "rgb" (String.mk o) = true := by
    rw [hoc]
    show listIsPre ("rgb".data) ('r' :: 'g' :: 'b' :: _) = true
    rw [show ("rgb" : String).data = ['r', 'g', 'b'] from rfl]
    simp [listIsPre]
  rw [nvBody]
  rw [show (String.mk o).data = o from rfl, h3, if_neg (by simp), h6,
    if_neg (by simp), hdec, if_neg (by simp), hz, if_neg (by simp), hr, if_pos rfl]
  show String.mk (o.filter (fun c => !isJsWs c)) = _
  rw [List.filter_eq_self.mpr (fun d hd => by simp [(hinert d hd).1])]

/-- The value normalizer is idempotent (claim statement, universal part). -/
theorem normalizeValue_idem (v p : String) :
    normalizeValue (normalizeValue v p) p = normalizeValue v p := by
  by_cases hv : v = ""
  · subst hv; rfl
  · have h1 : normalizeValue v p = nvBody (lowtrim v) := by
      rw [normalizeValue, if_neg hv]
    rw [h1]
    set val := lowtrim v with hval
    have hfix : ∀ c ∈ val.data, jsLower c = c := lowtrim_chars_fixed v
    have hlt : lowtrim val = val := lowtrim_idem v
    by_cases h3 : isHex3 val.data = true
    · -- three-digit hex expands and the expansion is a fixed point
      obtain ⟨a, b, c, hdata, hha, hhb, hhc⟩ := isHex3_shape h3
      have hfa : jsLower a = a := hfix a (by rw [hdata]; simp)
      have hfb : jsLower b = b := hfix b (by rw [hdata]; simp)
      have hfc : jsLower c = c := hfix c (by rw [hdata]; simp)
      rw [nvBody, if_pos h3, hdata]
      exact nvBody_hexExpand_fix p hfa hfb hfc hha hhb hhc
    · rw [nvBody, if_neg h3]
      by_cases h6 : isHex6 val.data = true
      · rw [if_pos h6]
        have hlow : lowerStr val = val := by
          show String.mk (lowerL val.data) = val
          unfold lowerL
          rw [map_inert hfix]
        rw [hlow]
        apply normalizeValue_of_fix
        intro hne
        refine ⟨hlt, ?_⟩
        rw [nvBody, if_neg h3, if_pos h6, hlow]
      · rw [if_neg h6]
        by_cases hd : isDecimalL val.data = true
        · rw [if_pos hd]
          exact nvBody_decimal_fix p (parseDecL val.data)
        · rw [if_neg hd]
          by_cases hz : isZeroL val.data = true
          · rw [if_pos hz]
            apply normalizeValue_of_fix
            intro _
            exact ⟨rfl, rfl⟩
          · rw [if_neg hz]
            by_cases hr : strStarts "rgb" val = true
            · rw [if_pos hr]
              have hshape : ∃ rest, val.data = 'r' :: 'g' :: 'b' :: rest := by
                unfold strStarts at hr
                rw [show ("rgb" : String).data = ['r', 'g', 'b'] from rfl] at hr
                rcases hv2 : val.data with _ | ⟨c1, _ | ⟨c2, _ | ⟨c3, rest⟩⟩⟩ <;>
                  rw [hv2] at hr <;> simp [listIsPre] at hr
                obtain ⟨rfl, rfl, rfl⟩ := hr
                exact ⟨rest, rfl⟩
              obtain ⟨rest, hdata⟩ := hshape
              have hfx : ∀ c ∈ 'r' :: 'g' :: 'b' :: rest, jsLower c = c := by
                rw [← hdata]; exact hfix
              show normalizeValue (stripWsAll val) p = stripWsAll val
              unfold stripWsAll
              rw [hdata]
              exact nvBody_rgb_fix p hfx
            · rw [if_neg hr]
              apply normalizeValue_of_fix
              intro hne
              refine ⟨hlt, ?_⟩
              rw [nvBody, if_neg h3, if_neg h6, if_neg hd, if_neg hz, if_neg hr]

/-! ## Grid counting lemmas (C4) -/

theorem matchRepeat_cons (c : Char) (cs : List Char) :
    matchRepeat (c :: cs) =
      (match tryRepeatAt (c :: cs) with
        | some (rc, t, _) => some (rc, t)
        | none => matchRepeat cs) := rfl

theorem replaceFirstRepeat_cons (c : Char) (cs : List Char) :
    replaceFirstRepeat (c :: cs) =
      (match tryLitParenAt ("repeat(".data) (c :: cs) with
        | some rest => rest
        | none => c :: replaceFirstRepeat cs) := rfl

theorem dropLit_append (lit r : List Char) : dropLit lit (lit ++ r) = some r := by
  induction lit with
  | nil => rfl
  | cons c cs ih => simp [dropLit, ih]

theorem trimL_of_edges {l : List Char} {c d : Char} (hh : l.head? = some c)
    (hc : isJsWs c = false) (hl : l.getLast? = some d) (hd : isJsWs d = false) :
    trimL l = l := by
  unfold trimL
  have h1 : l.dropWhile isJsWs = l := by
    cases l with
    | nil => rfl
    | cons a as =>
      simp only [List.head?] at hh
      cases hh
      simp [List.dropWhile_cons, hc]
  rw [h1]
  have h2 : l.reverse.dropWhile isJsWs = l.reverse := by
    cases hr : l.reverse with
    | nil => rfl
    | cons a as =>
      have ha : l.getLast? = some a := by
        rw [← List.head?_reverse, hr]; rfl
      rw [hl] at ha
      have := Option.some.inj ha
      subst this
      simp [List.dropWhile_cons, hd]
  rw [h2, List.reverse_reverse]

theorem jsTrim_of_edges {s : String} {c d : Char} (hh : s.data.head? = some c)
    (hc : isJsWs c = false) (hl : s.data.getLast? = some d) (hd : isJsWs d = false) :
    jsTrim s = s := by
  unfold jsTrim
  rw [trimL_of_edges hh hc hl hd]

theorem lazyTemplGo_closes {t : List Char} (hdot : ∀ c ∈ t, isDotCh c = true)
    (hnp : ∀ c ∈ t, c ≠ ')') :
    ∀ acc : List Char, acc ++ t ≠ [] →
      lazyTemplGo acc (t ++ [')']) = some (acc ++ t, []) := by
  induction t with
  | nil =>
    intro acc hne
    simp only [List.append_nil] at hne
    show lazyTemplGo acc (')' :: []) = some (acc ++ [], [])
    unfold lazyTemplGo
    simp [hne]
  | cons c t2 ih =>
    intro acc _
    show lazyTemplGo acc (c :: (t2 ++ [')'])) = _
    unfold lazyTemplGo
    rw [if_neg (by
      intro hand
      exact hnp c (by simp) hand.1)]
    rw [if_pos (hdot c (by simp))]
    rw [ih (fun x hx => hdot x (by simp [hx])) (fun x hx => hnp x (by simp [hx]))
      (acc ++ [c]) (by simp)]
    simp

theorem digit_ne_rparen {c : Char} (h : isDigitCh c = true) : c ≠ ')' := by
  intro he
  subst he
  exact absurd h (by decide)

/-- The repeat regex on a canonical `repeat(N, t)` input. -/
theorem tryRepeatAt_num {ds t : List Char} (hds : ds ≠ [])
    (hdig : ∀ c ∈ ds, isDigitCh c = true)
    (ht : t ≠ []) (hdot : ∀ c ∈ t, isDotCh c = true) (hnp : ∀ c ∈ t, c ≠ ')')
    (hhd : ∀ c, t.head? = some c → isJsWs c = false) :
    tryRepeatAt ("repeat(".data ++ (ds ++ [','] ++ [' '] ++ t ++ [')'])) =
      some (RepCount.num ds, t, []) := by
  have hR : ds ++ [','] ++ [' '] ++ t ++ [')'] = ds ++ ',' :: (' ' :: (t ++ [')'])) := by
    simp
  have htw : (ds ++ [','] ++ [' '] ++ t ++ [')']).takeWhile isDigitCh = ds := by
    rw [hR]
    exact takeWhile_all_then_stop _ hdig (by decide)
  have hdrop : (ds ++ [','] ++ [' '] ++ t ++ [')']).drop ds.length =
      ',' :: (' ' :: (t ++ [')'])) := by
    rw [hR, List.drop_left]
  have hws : wsBacktrack (' ' :: (t ++ [')'])) = some (t, []) := by
    unfold wsBacktrack
    have htk : ((' ' :: (t ++ [')'])).takeWhile isJsWs).length = 1 := by
      cases t with
      | nil => exact absurd rfl ht
      | cons c0 t2 =>
        have hws0 : isJsWs c0 = false := hhd c0 rfl
        simp [List.takeWhile_cons, hws0, show isJsWs ' ' = true from by decide]
    rw [htk]
    show (match lazyTemplate ((' ' :: (t ++ [')'])).drop 1) with
      | some r => some r
      | none => wsBackGo 0 (' ' :: (t ++ [')']))) = _
    have hd1 : (' ' :: (t ++ [')'])).drop 1 = t ++ [')'] := rfl
    rw [hd1]
    unfold lazyTemplate
    rw [lazyTemplGo_closes hdot hnp [] (by simpa using ht)]
    simp
  have hac : afterComma (RepCount.num ds) (',' :: (' ' :: (t ++ [')']))) =
      some (RepCount.num ds, t, []) := by
    simp [afterComma, hws]
  unfold tryRepeatAt
  rw [dropLit_append]
  show (match (if (ds ++ [','] ++ [' '] ++ t ++ [')']).takeWhile isDigitCh ≠ [] then
      afterComma
        (RepCount.num ((ds ++ [','] ++ [' '] ++ t ++ [')']).takeWhile isDigitCh))
        ((ds ++ [','] ++ [' '] ++ t ++ [')']).drop
          ((ds ++ [','] ++ [' '] ++ t ++ [')']).takeWhile isDigitCh).length)
    else none) with
    | some r => some r
    | none =>
      match (dropLit ("auto-fill".data) (ds ++ [','] ++ [' '] ++ t ++ [')'])).bind
          (afterComma RepCount.autoFill) with
      | some r => some r
      | none => (dropLit ("auto-fit".data) (ds ++ [','] ++ [' '] ++ t ++ [')'])).bind
          (afterComma RepCount.autoFit)) = some (RepCount.num ds, t, [])
  rw [htw, if_pos hds, hdrop, hac]

theorem tryRepeatAt_autoFill {t : List Char}
    (ht : t ≠ []) (hdot : ∀ c ∈ t, isDotCh c = true) (hnp : ∀ c ∈ t, c ≠ ')')
    (hhd : ∀ c, t.head? = some c → isJsWs c = false) :
    tryRepeatAt ("repeat(".data ++ ("auto-fill".data ++ [','] ++ [' '] ++ t ++ [')'])) =
      some (RepCount.autoFill, t, []) := by
  have hR : "auto-fill".data ++ [','] ++ [' '] ++ t ++ [')'] =
      "auto-fill".data ++ (',' :: (' ' :: (t ++ [')']))) := by simp
  have htw : ("auto-fill".data ++ [','] ++ [' '] ++ t ++ [')']).takeWhile isDigitCh = [] := by
    rw [show ("auto-fill" : String).data = 'a' :: "uto-fill".data from rfl]
    simp [List.takeWhile_cons, show isDigitCh 'a' = false from by decide]
  have hdl : dropLit ("auto-fill".data)
      ("auto-fill".data ++ [','] ++ [' '] ++ t ++ [')']) =
      some (',' :: (' ' :: (t ++ [')']))) := by
    rw [hR, dropLit_append]
  have hws : wsBacktrack (' ' :: (t ++ [')'])) = some (t, []) := by
    unfold wsBacktrack
    have htk : ((' ' :: (t ++ [')'])).takeWhile isJsWs).length = 1 := by
      cases t with
      | nil => exact absurd rfl ht
      | cons c0 t2 =>
        have hws0 : isJsWs c0 = false := hhd c0 rfl
        simp [List.takeWhile_cons, hws0, show isJsWs ' ' = true from by decide]
    rw [htk]
    show (match lazyTemplate ((' ' :: (t ++ [')'])).drop 1) with
      | some r => some r
      | none => wsBackGo 0 (' ' :: (t ++ [')']))) = _
    have hd1 : (' ' :: (t ++ [')'])).drop 1 = t ++ [')'] := rfl
    rw [hd1]
    unfold lazyTemplate
    rw [lazyTemplGo_closes hdot hnp [] (by simpa using ht)]
    simp
  have hac : afterComma RepCount.autoFill (',' :: (' ' :: (t ++ [')']))) =
      some (RepCount.autoFill, t, []) := by
    simp [afterComma, hws]
  unfold tryRepeatAt
  rw [dropLit_append]
  show (match (if ("auto-fill".data ++ [','] ++ [' '] ++ t ++ [')']).takeWhile
        isDigitCh ≠ [] then
      afterComma
        (RepCount.num (("auto-fill".data ++ [','] ++ [' '] ++ t ++ [')']).takeWhile isDigitCh))
        (("auto-fill".data ++ [','] ++ [' '] ++ t ++ [')']).drop
          (("auto-fill".data ++ [','] ++ [' '] ++ t ++ [')']).takeWhile isDigitCh).length)
    else none) with
    | some r => some r
    | none =>
      match (dropLit ("auto-fill".data)
          ("auto-fill".data ++ [','] ++ [' '] ++ t ++ [')'])).bind
          (afterComma RepCount.autoFill) with
      | some r => some r
      | none => (dropLit ("auto-fit".data)
          ("auto-fill".data ++ [','] ++ [' '] ++ t ++ [')'])).bind
          (afterComma RepCount.autoFit)) = some (RepCount.autoFill, t, [])
  rw [htw, if_neg (by simp), hdl, Option.some_bind, hac]

theorem tryRepeatAt_autoFit {t : List Char}
    (ht : t ≠ []) (hdot : ∀ c ∈ t, isDotCh c = true) (hnp : ∀ c ∈ t, c ≠ ')')
    (hhd : ∀ c, t.head? = some c → isJsWs c = false) :
    tryRepeatAt ("repeat(".data ++ ("auto-fit".data ++ [','] ++ [' '] ++ t ++ [')'])) =
      some (RepCount.autoFit, t, []) := by
  have hR : "auto-fit".data ++ [','] ++ [' '] ++ t ++ [')'] =
      "auto-fit".data ++ (',' :: (' ' :: (t ++ [')']))) := by simp
  have htw : ("auto-fit".data ++ [','] ++ [' '] ++ t ++ [')']).takeWhile isDigitCh = [] := by
    rw [show ("auto-fit" : String).data = 'a' :: "uto-fit".data from rfl]
    simp [List.takeWhile_cons, show isDigitCh 'a' = false from by decide]
  have hdlFill : dropLit ("auto-fill".data)
      ("auto-fit".data ++ [','] ++ [' '] ++ t ++ [')']) = none := rfl
  have hdl : dropLit ("auto-fit".data)
      ("auto-fit".data ++ [','] ++ [' '] ++ t ++ [')']) =
      some (',' :: (' ' :: (t ++ [')']))) := by
    rw [hR, dropLit_append]
  have hws : wsBacktrack (' ' :: (t ++ [')'])) = some (t, []) := by
    unfold wsBacktrack
    have htk : ((' ' :: (t ++ [')'])).takeWhile isJsWs).length = 1 := by
      cases t with
      | nil => exact absurd rfl ht
      | cons c0 t2 =>
        have hws0 : isJsWs c0 = false := hhd c0 rfl
        simp [List.takeWhile_cons, hws0, show isJsWs ' ' = true from by decide]
    rw [htk]
    show (match lazyTemplate ((' ' :: (t ++ [')'])).drop 1) with
      | some r => some r
      | none => wsBackGo 0 (' ' :: (t ++ [')']))) = _
    have hd1 : (' ' :: (t ++ [')'])).drop 1 = t ++ [')'] := rfl
    rw [hd1]
    unfold lazyTemplate
    rw [lazyTemplGo_closes hdot hnp [] (by simpa using ht)]
    simp
  have hac : afterComma RepCount.autoFit (',' :: (' ' :: (t ++ [')']))) =
      some (RepCount.autoFit, t, []) := by
    simp [afterComma, hws]
  unfold tryRepeatAt
  rw [dropLit_append]
  show (match (if ("auto-fit".data ++ [','] ++ [' '] ++ t ++ [')']).takeWhile
        isDigitCh ≠ [] then
      afterComma
        (RepCount.num (("auto-fit".data ++ [','] ++ [' '] ++ t ++ [')']).takeWhile isDigitCh))
        (("auto-fit".data ++ [','] ++ [' '] ++ t ++ [')']).drop
          (("auto-fit".data ++ [','] ++ [' '] ++ t ++ [')']).takeWhile isDigitCh).length)
    else none) with
    | some r => some r
    | none =>
      match (dropLit ("auto-fill".data)
          ("auto-fit".data ++ [','] ++ [' '] ++ t ++ [')'])).bind
          (afterComma RepCount.autoFill) with
      | some r => some r
      | none => (dropLit ("auto-fit".data)
          ("auto-fit".data ++ [','] ++ [' '] ++ t ++ [')'])).bind
          (afterComma RepCount.autoFit)) = some (RepCount.autoFit, t, [])
  rw [htw, if_neg (by simp), hdlFill, Option.none_bind, hdl, Option.some_bind, hac]

theorem replaceFirstRepeat_all {body : List Char} (hb : body ≠ [])
    (hnp : ∀ c ∈ body, c ≠ ')') :
    replaceFirstRepeat ("repeat(".data ++ (body ++ [')'])) = [] := by
  have hlit : tryLitParenAt ("repeat(".data) ("repeat(".data ++ (body ++ [')'])) = some [] := by
    unfold tryLitParenAt
    rw [dropLit_append]
    show tryFnTail (body ++ [')']) = some []
    unfold tryFnTail
    have htw : (body ++ [')']).takeWhile (fun c => decide (c ≠ ')')) = body := by
      exact takeWhile_all_then_stop _ (fun c hc => by simp [hnp c hc]) (by decide)
    rw [htw, if_pos hb, List.drop_left]
    rfl
  rw [show "repeat(".data ++ (body ++ [')']) =
    'r' :: ("epeat(".data ++ (body ++ [')'])) from rfl, replaceFirstRepeat_cons]
  rw [show tryLitParenAt ("repeat(".data) ('r' :: ("epeat(".data ++ (body ++ [')']))) =
    some [] from hlit]

/-- C4: the grid column-count function multiplies the inner template count
by the repeat factor for `repeat(N, t)`, returns the sentinel `-1` for both
the `auto-fill` and the `auto-fit` repeat forms, and handles the reference
inputs. -/
theorem C4_grid_column_count :
    (∀ ds t : List Char, ds ≠ [] → (∀ c ∈ ds, isDigitCh c = true) →
      t ≠ [] → (∀ c ∈ t, isDotCh c = true ∧ c ≠ ')' ∧ isJsWs c = false) →
      countGridColumns (String.mk ("repeat(".data ++ (ds ++ [','] ++ [' '] ++ t ++ [')']))) =
        (parseIntDigits ds : Int) * countColumnsInTemplate (String.mk t)) ∧
    (∀ t : List Char, t ≠ [] → (∀ c ∈ t, isDotCh c = true ∧ c ≠ ')' ∧ isJsWs c = false) →
      countGridColumns (String.mk ("repeat(".data ++
        ("auto-fill".data ++ [','] ++ [' '] ++ t ++ [')']))) = -1) ∧
    (∀ t : List Char, t ≠ [] → (∀ c ∈ t, isDotCh c = true ∧ c ≠ ')' ∧ isJsWs c = false) →
      countGridColumns (String.mk ("repeat(".data ++
        ("auto-fit".data ++ [','] ++ [' '] ++ t ++ [')']))) = -1) ∧
    countGridColumns "repeat(3, 1fr)" = 3 ∧
    countGridColumns "repeat(auto-fill, 100px)" = -1 ∧
    countGridColumns "repeat(auto-fit, 100px)" = -1 ∧
    countGridColumns "200px minmax(100px,1fr) 200px" = 3 := by
  have hws_rp : isJsWs 'r' = false := by decide
  have hws_par : isJsWs ')' = false := by decide
  refine ⟨?_, ?_, ?_, by decide, by decide, by decide, by decide⟩
  · intro ds t hds hdig ht hprop
    have hdot : ∀ c ∈ t, isDotCh c = true := fun c hc => (hprop c hc).1
    have hnp : ∀ c ∈ t, c ≠ ')' := fun c hc => (hprop c hc).2.1
    have hhd : ∀ c, t.head? = some c → isJsWs c = false := by
      intro c hc
      cases t with
      | nil => simp at hc
      | cons a as =>
        have hax : a = c := by simpa using hc
        subst hax
        exact (hprop _ (by simp)).2.2
    set s : String := String.mk ("repeat(".data ++ (ds ++ [','] ++ [' '] ++ t ++ [')']))
      with hs
    have hdata : s.data = "repeat(".data ++ (ds ++ [','] ++ [' '] ++ t ++ [')']) := rfl
    have hne : s ≠ "" := @ne_empty_of_data_cons s 'r'
      ("epeat(".data ++ (ds ++ [','] ++ [' '] ++ t ++ [')'])) rfl
    have htrim : jsTrim s = s := by
      apply @jsTrim_of_edges s 'r' ')'
      · rw [hdata]; rfl
      · exact hws_rp
      · rw [hdata, show "repeat(".data ++ (ds ++ [','] ++ [' '] ++ t ++ [')']) =
          ("repeat(".data ++ ds ++ [','] ++ [' '] ++ t) ++ [')'] from by simp,
          List.getLast?_concat]
      · exact hws_par
    rw [countGridColumns, if_neg hne, htrim]
    have hmr : matchRepeat s.data = some (RepCount.num ds, t) := by
      have h := tryRepeatAt_num hds hdig ht hdot hnp hhd
      rw [hdata, show "repeat(".data ++ (ds ++ [','] ++ [' '] ++ t ++ [')']) =
        'r' :: ("epeat(".data ++ (ds ++ [','] ++ [' '] ++ t ++ [')'])) from rfl,
        matchRepeat_cons,
        show tryRepeatAt ('r' :: ("epeat(".data ++ (ds ++ [','] ++ [' '] ++ t ++ [')']))) =
          some (RepCount.num ds, t, []) from h]
    have hrep : replaceFirstRepeat s.data = [] := by
      rw [hdata]
      rw [show ds ++ [','] ++ [' '] ++ t ++ [')'] =
        (ds ++ [','] ++ [' '] ++ t) ++ [')'] from by simp]
      apply replaceFirstRepeat_all (by simp [hds])
      intro c hc
      simp only [List.mem_append, List.mem_singleton] at hc
      rcases hc with ((hc | rfl) | rfl) | hc
      · exact digit_ne_rparen (hdig c hc)
      · decide
      · decide
      · exact hnp c hc
    simp only [hmr, hrep]
    rw [if_neg (show ¬ jsTrim (String.mk []) ≠ "" from by decide)]
    push_cast
    ring
  · intro t ht hprop
    have hdot : ∀ c ∈ t, isDotCh c = true := fun c hc => (hprop c hc).1
    have hnp : ∀ c ∈ t, c ≠ ')' := fun c hc => (hprop c hc).2.1
    have hhd : ∀ c, t.head? = some c → isJsWs c = false := by
      intro c hc
      cases t with
      | nil => simp at hc
      | cons a as =>
        have hax : a = c := by simpa using hc
        subst hax
        exact (hprop _ (by simp)).2.2
    set s : String := String.mk ("repeat(".data ++
      ("auto-fill".data ++ [','] ++ [' '] ++ t ++ [')'])) with hs
    have hdata : s.data = "repeat(".data ++
      ("auto-fill".data ++ [','] ++ [' '] ++ t ++ [')']) := rfl
    have hne : s ≠ "" := @ne_empty_of_data_cons s 'r'
      ("epeat(".data ++ ("auto-fill".data ++ [','] ++ [' '] ++ t ++ [')'])) rfl
    have htrim : jsTrim s = s := by
      apply @jsTrim_of_edges s 'r' ')'
      · rw [hdata]; rfl
      · exact hws_rp
      · rw [hdata, show "repeat(".data ++ ("auto-fill".data ++ [','] ++ [' '] ++ t ++ [')']) =
          ("repeat(".data ++ "auto-fill".data ++ [','] ++ [' '] ++ t) ++ [')'] from by simp,
          List.getLast?_concat]
      · exact hws_par
    rw [countGridColumns, if_neg hne, htrim]
    have hmr : matchRepeat s.data = some (RepCount.autoFill, t) := by
      have h := tryRepeatAt_autoFill ht hdot hnp hhd
      rw [hdata, show "repeat(".data ++ ("auto-fill".data ++ [','] ++ [' '] ++ t ++ [')']) =
        'r' :: ("epeat(".data ++ ("auto-fill".data ++ [','] ++ [' '] ++ t ++ [')'])) from rfl,
        matchRepeat_cons,
        show tryRepeatAt ('r' :: ("epeat(".data ++
            ("auto-fill".data ++ [','] ++ [' '] ++ t ++ [')']))) =
          some (RepCount.autoFill, t, []) from h]
    simp only [hmr]
  · intro t ht hprop
    have hdot : ∀ c ∈ t, isDotCh c = true := fun c hc => (hprop c hc).1
    have hnp : ∀ c ∈ t, c ≠ ')' := fun c hc => (hprop c hc).2.1
    have hhd : ∀ c, t.head? = some c → isJsWs c = false := by
      intro c hc
      cases t with
      | nil => simp at hc
      | cons a as =>
        have hax : a = c := by simpa using hc
        subst hax
        exact (hprop _ (by simp)).2.2
    set s : String := String.mk ("repeat(".data ++
      ("auto-fit".data ++ [','] ++ [' '] ++ t ++ [')'])) with hs
    have hdata : s.data = "repeat(".data ++
      ("auto-fit".data ++ [','] ++ [' '] ++ t ++ [')']) := rfl
    have hne : s ≠ "" := @ne_empty_of_data_cons s 'r'
      ("epeat(".data ++ ("auto-fit".data ++ [','] ++ [' '] ++ t ++ [')'])) rfl
    have htrim : jsTrim s = s := by
      apply @jsTrim_of_edges s 'r' ')'
      · rw [hdata]; rfl
      · exact hws_rp
      · rw [hdata, show "repeat(".data ++ ("auto-fit".data ++ [','] ++ [' '] ++ t ++ [')']) =
          ("repeat(".data ++ "auto-fit".data ++ [','] ++ [' '] ++ t) ++ [')'] from by simp,
          List.getLast?_concat]
      · exact hws_par
    rw [countGridColumns, if_neg hne, htrim]
    have hmr : matchRepeat s.data = some (RepCount.autoFit, t) := by
      have h := tryRepeatAt_autoFit ht hdot hnp hhd
      rw [hdata, show "repeat(".data ++ ("auto-fit".data ++ [','] ++ [' '] ++ t ++ [')']) =
        'r' :: ("epeat(".data ++ ("auto-fit".data ++ [','] ++ [' '] ++ t ++ [')'])) from rfl,
        matchRepeat_cons,
        show tryRepeatAt ('r' :: ("epeat(".data ++
            ("auto-fit".data ++ [','] ++ [' '] ++ t ++ [')']))) =
          some (RepCount.autoFit, t, []) from h]
    simp only [hmr]

/-- Witness for C4: the general lemmas applied at `repeat(3, 1fr)`,
`repeat(auto-fill, 100px)` and `repeat(auto-fit, 100px)`. -/
theorem C4_grid_column_count_witness :
    countGridColumns (String.mk ("repeat(".data ++
        (['3'] ++ [','] ++ [' '] ++ ['1', 'f', 'r'] ++ [')']))) =
      (parseIntDigits ['3'] : Int) * countColumnsInTemplate (String.mk ['1', 'f', 'r']) ∧
    countGridColumns (String.mk ("repeat(".data ++
        ("auto-fill".data ++ [','] ++ [' '] ++ ['1', '0', '0', 'p', 'x'] ++ [')']))) = -1 ∧
    countGridColumns (String.mk ("repeat(".data ++
        ("auto-fit".data ++ [','] ++ [' '] ++ ['1', '0', '0', 'p', 'x'] ++ [')']))) = -1 :=
  ⟨C4_grid_column_count.1 ['3'] ['1', 'f', 'r'] (by decide) (by decide) (by decide)
      (by decide),
    C4_grid_column_count.2.1 ['1', '0', '0', 'p', 'x'] (by decide) (by decide),
    C4_grid_column_count.2.2.1 ['1', '0', '0', 'p', 'x'] (by decide) (by decide)⟩

/-- C7: the value normalizer is idempotent — `normalize(normalize(v)) =
normalize(v)` for every input string; `#ABC` normalizes to `#aabbcc`, `0px`
to `0`, `rgb( 1 , 2 , 3 )` to `rgb(1,2,3)`, and each of these outputs is a
fixed point of the normalizer. -/
theorem C7_normalizer_idempotent :
    (∀ v p : String, normalizeValue (normalizeValue v p) p = normalizeValue v p) ∧
    normalizeValue "#ABC" "color" = "#aabbcc" ∧
    normalizeValue "0px" "margin" = "0" ∧
    normalizeValue "rgb( 1 , 2 , 3 )" "color" = "rgb(1,2,3)" ∧
    normalizeValue "#aabbcc" "color" = "#aabbcc" ∧
    normalizeValue "0" "margin" = "0" ∧
    normalizeValue "rgb(1,2,3)" "color" = "rgb(1,2,3)" :=
  ⟨normalizeValue_idem, by decide, by decide, by decide, by decide, by decide, by decide⟩

/-! ## Selector identity keys refine the spec-side path definition (C1) -/

theorem extract_eq_filterMap (root : Stylesheet) :
    extractSelectorsWithContext root = (rulesOfList [] root).filterMap selKeyFn := rfl

theorem rulesOfNode_rule (anc : List CSSNode) (sel : String) (ch : CSSList) :
    rulesOfNode anc (.rule sel ch) =
      (CSSNode.rule sel ch, anc) :: rulesOfList (CSSNode.rule sel ch :: anc) ch := rfl

theorem specKeysNode_rule (ap : List String) (sel : String) (ch : CSSList) :
    specKeysNode ap (.rule sel ch) =
      if sel ≠ "" then
        joinSep " > " (ap ++ [jsTrim sel]) :: specKeysList (ap ++ [jsTrim sel]) ch
      else specKeysList ap ch := rfl

mutual
theorem selKeys_node : ∀ (anc : List CSSNode) (n : CSSNode),
    (rulesOfNode anc n).filterMap selKeyFn = specKeysNode (pathParts anc) n
  | anc, .rule sel ch => by
    rw [rulesOfNode_rule, List.filterMap_cons]
    simp only [selKeyFn]
    rw [specKeysNode_rule]
    have h := selKeys_list (CSSNode.rule sel ch :: anc) ch
    by_cases hs : sel = ""
    · have hp : pathParts (CSSNode.rule sel ch :: anc) = pathParts anc := by
        show pathParts anc ++ (if sel ≠ "" then [jsTrim sel] else []) = pathParts anc
        rw [if_neg (by simpa using hs), List.append_nil]
      rw [hp] at h
      rw [if_neg (by simpa using hs), if_neg (by simpa using hs)]
      exact h
    · have hp : pathParts (CSSNode.rule sel ch :: anc) =
          pathParts anc ++ [jsTrim sel] := by
        show pathParts anc ++ (if sel ≠ "" then [jsTrim sel] else []) = _
        rw [if_pos hs]
      rw [hp] at h
      rw [if_pos hs, if_pos hs]
      show buildSelectorPath (CSSNode.rule sel ch :: anc) ::
          (rulesOfList (CSSNode.rule sel ch :: anc) ch).filterMap selKeyFn =
        joinSep " > " (pathParts anc ++ [jsTrim sel]) ::
          specKeysList (pathParts anc ++ [jsTrim sel]) ch
      rw [h]
      show joinSep " > " (pathParts (CSSNode.rule sel ch :: anc)) :: _ = _
      rw [hp]
  | anc, .atrule n p ch => by
    show (rulesOfList (CSSNode.atrule n p ch :: anc) ch).filterMap selKeyFn =
      specKeysList (pathParts anc ++ ["@" ++ n ++ " " ++ p]) ch
    have h := selKeys_list (CSSNode.atrule n p ch :: anc) ch
    have hp : pathParts (CSSNode.atrule n p ch :: anc) =
        pathParts anc ++ ["@" ++ n ++ " " ++ p] := rfl
    rw [hp] at h
    exact h
  | _, .decl p v => rfl
theorem selKeys_list : ∀ (anc : List CSSNode) (l : CSSList),
    (rulesOfList anc l).filterMap selKeyFn = specKeysList (pathParts anc) l
  | anc, .nil => rfl
  | anc, .cons n t => by
    show (rulesOfNode anc n ++ rulesOfList anc t).filterMap selKeyFn =
      specKeysNode (pathParts anc) n ++ specKeysList (pathParts anc) t
    rw [List.filterMap_append, selKeys_node anc n, selKeys_list anc t]
end

/-- C1: a rule's identity key is its full ancestor path — every enclosing
rule's trimmed selector and every enclosing at-rule's name and parameters,
joined by `" > "` from the root down (`extractSelectorsWithContext` agrees
with the spec-worded `specKeysList` on every stylesheet); in particular
`.title` under `.card` and `.title` under `.header` receive the distinct keys
`".card > .title"` and `".header > .title"`, and the selector diff reports
the four add/remove records instead of matching the two `.title` rules. -/
theorem C1_selector_identity_path :
    (∀ root : Stylesheet, extractSelectorsWithContext root = specKeysList [] root) ∧
    extractSelectorsWithContext cardOld = [".card", ".card > .title"] ∧
    extractSelectorsWithContext headerNew = [".header", ".header > .title"] ∧
    (".card > .title" : String) ≠ ".header > .title" ∧
    compareSelectorsWithContext (some cardOld) (some headerNew) =
      ["Property added: selector .header",
       "Property added: selector .header > .title",
       "Property removed: selector .card",
       "Property removed: selector .card > .title"] := by
  refine ⟨fun root => ?_, by decide, by decide, by decide, by decide⟩
  rw [extract_eq_filterMap, selKeys_list [] root]
  rfl

/-! ## The 1-to-1 collapse (C2) -/

/-- Helper for C2: outside the animation family, `display` and the four
special-cased properties, a 1-distinct-value-per-side difference collapses
to the single `changed` record (with the element-count suffix when a side
holds several declarations). -/
theorem one_to_one_collapse (ast : Option Stylesheet) (p : String)
    (oldRaw newRaw : List String) (x y : String)
    (ha : animFamily p = false) (hd : p ≠ "display")
    (hs : specialFour.contains p = false)
    (hO : dedupFirst (oldRaw.map (fun v => normalizeValue v p)) = [x])
    (hN : dedupFirst (newRaw.map (fun v => normalizeValue v p)) = [y])
    (hxy : x ≠ y) :
    compareDeclProp ast p oldRaw newRaw =
      [if max oldRaw.length newRaw.length > 1 then
        changedRec p x y ++ " (" ++ natDec (max oldRaw.length newRaw.length) ++
          " elements)"
      else changedRec p x y] := by
  have hs2 : p ∉ specialFour := by
    intro hmem
    have : specialFour.contains p = true := by
      simp [List.contains, List.elem_iff, hmem]
    rw [this] at hs
    cases hs
  simp [compareDeclProp, ha, hd, hs2, hO, hN, hxy, List.length_map]

/-- C2 counterexample: for a typography property the 1-to-1 collapse record
is emitted twice — once by the main per-property loop and once more by the
typography pass — so the full declaration diff of `.a { font-size: 10px }`
against `.a { font-size: 12px }` holds two copies of the `changed` record,
not exactly one. -/
theorem C2_typography_double_report :
    compareDeclarations (some fsOld) (some fsNew) =
      ["Property changed: font-size from 10px → 12px",
       "Property changed: font-size from 10px → 12px"] ∧
    countOcc (compareDeclarations (some fsOld) (some fsNew))
      "Property changed: font-size from 10px → 12px" = 2 := by
  refine ⟨by decide, by decide⟩

/-- C2 (amended): for a property outside the animation family (handled by a
separate pass), outside `display` and the four special-cased properties
(which follow their own handlers), and outside the typography list (whose
records the typography pass duplicates), one distinct normalized value per
side that differs yields exactly the single `changed X → Y` record in the
per-property loop and zero added/removed records; old `color: red` against
new `color: blue` yields exactly `["Property changed: color from red → blue"]`
for the whole declaration diff. -/
theorem C2_one_to_one_collapse :
    (∀ (ast : Option Stylesheet) (p : String) (oldRaw newRaw : List String)
      (x y : String),
      animFamily p = false → p ≠ "display" → specialFour.contains p = false →
      dedupFirst (oldRaw.map (fun v => normalizeValue v p)) = [x] →
      dedupFirst (newRaw.map (fun v => normalizeValue v p)) = [y] →
      x ≠ y →
      compareDeclProp ast p oldRaw newRaw =
        [if max oldRaw.length newRaw.length > 1 then
          changedRec p x y ++ " (" ++ natDec (max oldRaw.length newRaw.length) ++
            " elements)"
        else changedRec p x y]) ∧
    compareDeclarations (some ccOld) (some ccNew) =
      ["Property changed: color from red → blue"] := by
  exact ⟨fun ast p oldRaw newRaw x y ha hd hs hO hN hxy =>
    one_to_one_collapse ast p oldRaw newRaw x y ha hd hs hO hN hxy, by decide⟩

/-! ## The login end-to-end function-diff scenario (C3) -/

/-- C3 counterexample: the complexity detail is reported only when the new
complexity exceeds the old by strictly more than 2, so for complexity 1 → 3
the Modified record for `login` carries only three details — the
complexity item is missing from the list. -/
theorem C3_complexity_threshold_counterexample :
    diffFunctions [loginOld] [loginNew] =
      ["Function login changed:",
       "  └─ Changed to async",
       "  └─ Added parameter: rememberMe (with default)",
       "  └─ Added API calls"] ∧
    ("  └─ Complexity increased (1 → 3)") ∉ diffFunctions [loginOld] [loginNew] := by
  refine ⟨by decide, by decide⟩

/-- C3 (amended): the login scenario produces one Modified record for
`login` whose details are parameter `rememberMe` added with a default,
changed to async, and API calls added; the complexity detail appears only
when the increase exceeds the threshold of 2, e.g. at complexity 1 → 4. -/
theorem C3_login_scenario :
    diffFunctions [loginOld] [loginNew] =
      ["Function login changed:",
       "  └─ Changed to async",
       "  └─ Added parameter: rememberMe (with default)",
       "  └─ Added API calls"] ∧
    diffFunctions [loginOld] [loginNewC4] =
      ["Function login changed:",
       "  └─ Changed to async",
       "  └─ Added parameter: rememberMe (with default)",
       "  └─ Complexity increased (1 → 4)",
       "  └─ Added API calls"] := by
  refine ⟨by decide, by decide⟩

/-! ## Self-diff (C5) -/

theorem flatMap_eq_nil_of {α β : Type} {l : List α} {f : α → List β}
    (h : ∀ x ∈ l, f x = []) : l.flatMap f = [] := by
  induction l with
  | nil => rfl
  | cons a t ih =>
    rw [List.flatMap_cons, h a (by simp), ih (fun x hx => h x (by simp [hx]))]
    rfl

theorem filter_not_contains_self (u : List String) :
    u.filter (fun v => !u.contains v) = [] := by
  rw [List.filter_eq_nil_iff]
  intro v hv
  simp [List.contains, List.elem_iff, hv]

theorem selDiffPairs_self (m : List (String × Nat)) : selDiffPairs m m = [] := by
  rw [selDiffPairs, List.filter_eq_nil_iff]
  intro pr hpr
  have : hasKey m pr.1 = true := List.any_eq_true.mpr ⟨pr, hpr, by simp⟩
  simp [this]

theorem compareSelectorsWithContext_self (a : Option Stylesheet) :
    compareSelectorsWithContext a a = [] := by
  cases a with
  | none => rfl
  | some root =>
    show (selDiffPairs (countMap (extractSelectorsWithContext root))
        (countMap (extractSelectorsWithContext root))).map (selRecord "added") ++
      (selDiffPairs (countMap (extractSelectorsWithContext root))
        (countMap (extractSelectorsWithContext root))).map (selRecord "removed") = []
    rw [selDiffPairs_self]
    rfl

theorem compareFunctions_self (f : FuncInfo) : compareFunctions f f = [] := by
  unfold compareFunctions
  rw [if_neg (by simp), if_neg (by simp), if_neg (by omega),
    if_neg (by cases f.callsAPI <;> simp), if_neg (by simp)]
  rfl

theorem find?_name_self {funcs : List FuncInfo}
    (hnd : (funcs.map FuncInfo.name).Nodup) {f : FuncInfo} (hf : f ∈ funcs) :
    funcs.find? (fun g => g.name = f.name) = some f := by
  induction funcs with
  | nil => cases hf
  | cons g rest ih =>
    rcases List.mem_cons.mp hf with hfg | hfr
    · subst hfg
      exact List.find?_cons_of_pos _ (by simp)
    · have hgne : g.name ≠ f.name := by
        intro he
        have : f.name ∈ rest.map FuncInfo.name := List.mem_map_of_mem _ hfr
        rw [List.map_cons] at hnd
        exact (List.nodup_cons.mp hnd).1 (he ▸ this)
      rw [List.find?_cons_of_neg _ (by simpa using hgne)]
      exact ih (by rw [List.map_cons] at hnd; exact (List.nodup_cons.mp hnd).2) hfr

theorem diffFunctions_self {funcs : List FuncInfo}
    (hnd : (funcs.map FuncInfo.name).Nodup) : diffFunctions funcs funcs = [] := by
  unfold diffFunctions
  rw [flatMap_eq_nil_of (fun nf hnf => by
      rw [find?_name_self hnd hnf]
      simp [compareFunctions_self]),
    flatMap_eq_nil_of (fun of hof => by
      rw [if_pos (List.any_eq_true.mpr ⟨of, hof, by simp⟩)])]
  rfl

theorem displayAddRem_self (u u0 : List String) (ast : Option Stylesheet) :
    displayAddRem u u u0 ast = [] := by
  unfold displayAddRem
  rw [filter_not_contains_self]
  rfl

theorem handleDisplayChanges_self (u u0 : List String) (ast : Option Stylesheet) :
    handleDisplayChanges u u u0 ast = [] := by
  match u with
  | [] => exact displayAddRem_self _ _ _
  | [x] =>
    show (if x ≠ x then _ else displayAddRem [x] [x] u0 ast) = []
    rw [if_neg (by simp)]
    exact displayAddRem_self _ _ _
  | x :: y :: t => exact displayAddRem_self _ _ _

theorem specialAddRem_self (p : String) (u u0 v0 : List String) :
    specialAddRem p u u u0 v0 = [] := by
  unfold specialAddRem
  rw [filter_not_contains_self]
  rfl

theorem handleSpecialProperty_self (p : String) (u u0 v0 : List String) :
    handleSpecialProperty p u u u0 v0 = [] := by
  match u with
  | [] => exact specialAddRem_self _ _ _ _
  | [x] =>
    show (if x ≠ x then _ else specialAddRem p [x] [x] u0 v0) = []
    rw [if_neg (by simp)]
    exact specialAddRem_self _ _ _ _
  | x :: y :: t => exact specialAddRem_self _ _ _ _

theorem declCaseRest_self (p : String) (vs u : List String) :
    declCaseRest p vs vs u u = [] := by
  unfold declCaseRest
  rw [if_neg (by omega), if_neg (by omega), filter_not_contains_self]
  rfl

theorem compareDeclProp_self (ast : Option Stylesheet) (p : String)
    (vs : List String) : compareDeclProp ast p vs vs = [] := by
  unfold compareDeclProp
  by_cases ha : animFamily p = true
  · rw [if_pos ha]
  · rw [if_neg ha]
    by_cases hd : p = "display"
    · rw [if_pos hd]
      exact handleDisplayChanges_self _ _ _
    · rw [if_neg hd]
      by_cases hs : specialFour.contains p = true
      · rw [if_pos hs]
        exact handleSpecialProperty_self _ _ _ _
      · rw [if_neg hs]
        match hu : dedupFirst (vs.map (fun v => normalizeValue v p)) with
        | [] => exact declCaseRest_self _ _ _
        | [x] =>
          show (if x ≠ x then _ else declCaseRest p _ _ [x] [x]) = []
          rw [if_neg (by simp)]
          exact declCaseRest_self _ _ _
        | x :: y :: t => exact declCaseRest_self _ _ _

theorem animPropRecords_self (p : String) (vs : List String) :
    animPropRecords p vs vs = [] := by
  unfold animPropRecords
  match dedupFirst vs with
  | [] => rfl
  | [x] => simp [filter_not_contains_self]
  | x :: y :: t =>
    simp [filter_not_contains_self]
    intro a ha h1 h2
    exact ha

theorem analyzeAnimations_self (root : Stylesheet) :
    analyzeAnimations root (some root) = [] := by
  unfold analyzeAnimations
  exact flatMap_eq_nil_of (fun p hp => animPropRecords_self _ _)

theorem analyzeTypography_self (root : Stylesheet) :
    analyzeTypography root (some root) = [] := by
  unfold analyzeTypography
  exact flatMap_eq_nil_of (fun p hp => animPropRecords_self _ _)

theorem compareDeclarations_self (root : Stylesheet) :
    compareDeclarations (some root) (some root) = detectDuplicateProperties root := by
  show detectDuplicateProperties root ++
    ((dedupFirst ((extractDeclarations root).map (fun q => q.1) ++
        (extractDeclarations root).map (fun q => q.1))).flatMap
      (fun prop => compareDeclProp (some root) prop
        (lookupVals (extractDeclarations root) prop)
        (lookupVals (extractDeclarations root) prop))) ++
    (analyzeAnimations root (some root) ++ analyzeTypography root (some root)) = _
  rw [flatMap_eq_nil_of (fun p hp => compareDeclProp_self _ _ _),
    analyzeAnimations_self, analyzeTypography_self]
  simp

/-- C5 counterexample: two extracted functions may share a name (the
structural model's identity key); diffing such a model against itself is not
empty, because `find` resolves both occurrences of `f` to the first record
and reports the second one's parameters as changed. -/
theorem C5_duplicate_name_counterexample :
    diffFunctions [fX, fY] [fX, fY] =
      ["Function f changed:",
       "  └─ Added parameter: y",
       "  └─ Removed parameter: x"] ∧
    diffFunctions [fX, fY] [fX, fY] ≠ [] := by
  refine ⟨by decide, by decide⟩

/-- C5 (amended): diffing a model against itself yields zero
added/removed/modified records provided no two extracted functions share a
name; the selector self-diff is empty unconditionally, and the declaration
self-diff emits only the duplicate-override warnings (which do not depend on
the other side), never an added/removed/changed record. -/
theorem C5_self_diff :
    (∀ funcs : List FuncInfo, (funcs.map FuncInfo.name).Nodup →
      diffFunctions funcs funcs = []) ∧
    (∀ a : Option Stylesheet, compareSelectorsWithContext a a = []) ∧
    (∀ root : Stylesheet,
      compareDeclarations (some root) (some root) = detectDuplicateProperties root) :=
  ⟨fun _ hnd => diffFunctions_self hnd, compareSelectorsWithContext_self,
    compareDeclarations_self⟩

/-! ## Mirror symmetry of the diff directions (C6) -/

theorem selRecord_eq (w : String) (pr : String × Nat) :
    selRecord w pr = ("Property " ++ w ++ ": selector ") ++ selTail pr := by
  unfold selRecord selTail
  rw [String.append_assoc]

theorem strAppend_left_cancel {s t u : String} (h : s ++ t = s ++ u) : t = u := by
  have h2 := congrArg String.data h
  simp only [String.data_append] at h2
  exact String.ext (List.append_cancel_left h2)

theorem selRecord_eq_iff (w : String) (pr q : String × Nat) :
    selRecord w pr = selRecord w q ↔ selTail pr = selTail q := by
  rw [selRecord_eq, selRecord_eq]
  constructor
  · exact strAppend_left_cancel
  · intro h
    rw [h]

theorem starts_added_added (t : String) :
    strStarts "Property added" ("Property added: selector " ++ t) = true := rfl

theorem starts_added_removed (t : String) :
    strStarts "Property added" ("Property removed: selector " ++ t) = false := rfl

theorem selRecord_added_ne_removed (pr q : String × Nat) :
    selRecord "added" pr ≠ selRecord "removed" q := by
  intro h
  rw [selRecord_eq, selRecord_eq] at h
  rw [show ("Property " ++ "added" ++ ": selector " : String) =
    "Property added: selector " from rfl] at h
  rw [show ("Property " ++ "removed" ++ ": selector " : String) =
    "Property removed: selector " from rfl] at h
  have h2 := congrArg (fun s => strStarts "Property added" s) h
  simp only [starts_added_added, starts_added_removed] at h2
  exact Bool.noConfusion h2

theorem compareSelectors_decomp (oldAST newAST : Option Stylesheet) :
    compareSelectorsWithContext oldAST newAST =
      (addedPairs oldAST newAST).map (selRecord "added") ++
      (removedPairs oldAST newAST).map (selRecord "removed") := rfl

theorem selector_mem_mirror (a b : Option Stylesheet) (pr : String × Nat) :
    selRecord "added" pr ∈ compareSelectorsWithContext a b ↔
    selRecord "removed" pr ∈ compareSelectorsWithContext b a := by
  rw [compareSelectors_decomp a b, compareSelectors_decomp b a]
  simp only [List.mem_append, List.mem_map]
  constructor
  · rintro (⟨q, hq, he⟩ | ⟨q, hq, he⟩)
    · right
      refine ⟨q, hq, ?_⟩
      rw [selRecord_eq_iff] at he ⊢
      exact he
    · exact absurd he.symm (selRecord_added_ne_removed pr q)
  · rintro (⟨q, hq, he⟩ | ⟨q, hq, he⟩)
    · exact absurd he (selRecord_added_ne_removed q pr)
    · left
      refine ⟨q, hq, ?_⟩
      rw [selRecord_eq_iff] at he ⊢
      exact he

/-- C6 counterexample: the declaration diff is not mirror-symmetric;
`handleDisplayChanges` reads removal counts from the new-side count object,
so diffing two `display: block` rules against one `color: red` rule renders
`Property removed: display: block` without its `(2 elements)` suffix, while
the reverse direction renders `Property added: display: block (2 elements)`
with it. -/
theorem C6_display_count_counterexample :
    compareDeclarations (some dOld) (some dNew) =
      ["Property removed: display: block", "Property added: color: red"] ∧
    compareDeclarations (some dNew) (some dOld) =
      ["Property removed: color: red",
       "Property added: display: block (2 elements)"] ∧
    "Property added: display: block (2 elements)" ∈
      compareDeclarations (some dNew) (some dOld) ∧
    "Property removed: display: block (2 elements)" ∉
      compareDeclarations (some dOld) (some dNew) := by
  refine ⟨by decide, by decide, by decide, by decide⟩

/-- C6 (amended): the selector diff is mirror-symmetric — each direction is
the `added` rendering of one pair list followed by the `removed` rendering of
the other, the two directions draw both renderings from exactly the same
key/count pair lists (so keys, occurrence counts and the count suffix agree),
and a record is an `added` record of one direction iff its `removed`
counterpart is a record of the reverse direction. The declaration diff does
not satisfy this mirror (see the counterexample). -/
theorem C6_selector_mirror :
    ∀ a b : Option Stylesheet,
      compareSelectorsWithContext a b =
        (addedPairs a b).map (selRecord "added") ++
        (removedPairs a b).map (selRecord "removed") ∧
      addedPairs a b = removedPairs b a ∧
      removedPairs a b = addedPairs b a ∧
      (∀ pr : String × Nat,
        selRecord "added" pr ∈ compareSelectorsWithContext a b ↔
        selRecord "removed" pr ∈ compareSelectorsWithContext b a) :=
  fun a b =>
    ⟨compareSelectors_decomp a b, rfl, rfl, fun pr => selector_mem_mirror a b pr⟩

/-! ## The fallback controller (C8, C9) and the stylesheet entry point (C10) -/

theorem jsAstFailureFallback_generic
    (patternImpl : String → String → List String) (diffText path : String) :
    jsAstFailureFallback patternImpl diffText path =
      (parseGeneric diffText, "generic-fallback") := by
  unfold jsAstFailureFallback
  rw [if_neg (by decide)]

/-- C8: the pattern tier is unreachable for plain JavaScript/TypeScript
artifacts — `jsParser.js` exports no `parseJS`, so the destructured binding
is `undefined`, the call throws, and the controller lands on the generic
line-count tier no matter what the pattern pass would have produced; the
`d8` run shows the divergence concretely (generic `Modified: +1 -1 lines`
instead of the pattern result `Added function: handleClick`). -/
theorem C8_pattern_tier_unreachable :
    ("parseJS" ∉ jsParserModuleExports) ∧
    (∀ (patternImpl : String → String → List String) (diffText path : String),
      jsAstFailureFallback patternImpl diffText path =
        (parseGeneric diffText, "generic-fallback")) ∧
    detectFileType d8.path d8.diffText = "javascript" ∧
    P8.ast d8.path d8.diffText = ASTOutcome.err "SyntaxError" ∧
    P8.jsPattern d8.diffText d8.path = ["Added function: handleClick"] ∧
    (analyzeOne P8 d8).changes = ["Modified: +1 -1 lines"] ∧
    (analyzeOne P8 d8).parseMethod = "generic-fallback" ∧
    (["Modified: +1 -1 lines"] : List String) ≠ ["Added function: handleClick"] := by
  refine ⟨by decide, jsAstFailureFallback_generic, rfl, rfl, rfl,
    by decide, by decide, by decide⟩

theorem analyzeOne_changes_ne_nil (P : Parsers) (d : DiffEntry) :
    (analyzeOne P d).changes ≠ [] := by
  unfold analyzeOne
  by_cases h1 : d.status = "added"
  · simp [h1]
  · rw [if_neg h1]
    by_cases h2 : d.status = "deleted"
    · simp [h2]
    · rw [if_neg h2]
      by_cases h3 : d.status = "renamed"
      · simp [h3]
      · rw [if_neg h3]
        by_cases h4 : d.binary = true
        · simp [h4]
        · rw [if_neg h4]
          by_cases h5 : (modifiedChanges P d).1.length > 0
          · simp only [if_pos h5]
            intro he
            rw [he] at h5
            simp at h5
          · simp [if_neg h5]

/-- C9: `analyzeChanges` yields exactly one result entry per artifact (it is
the per-artifact map, so lengths agree and an artifact's entry depends only
on that artifact — surrounding batch entries are unchanged); every entry
carries a non-empty change list, and a modified plain-JavaScript artifact
whose AST pass throws is recovered locally to the generic line-count
summary (`Code modified` when the diff has no counted lines). -/
theorem C9_per_artifact_isolation :
    (∀ (P : Parsers) (diffs : List DiffEntry),
      (analyzeChanges P diffs).length = diffs.length) ∧
    (∀ (P : Parsers) (pre post : List DiffEntry) (d : DiffEntry),
      analyzeChanges P (pre ++ d :: post) =
        analyzeChanges P pre ++ analyzeOne P d :: analyzeChanges P post) ∧
    (∀ (P : Parsers) (d : DiffEntry), (analyzeOne P d).changes ≠ []) ∧
    (∀ (P : Parsers) (d : DiffEntry) (m : String),
      d.status = "modified" → d.binary = false →
      detectFileType d.path d.diffText = "javascript" →
      P.ast d.path d.diffText = ASTOutcome.err m →
      (analyzeOne P d).changes =
        (if (parseGeneric d.diffText).length > 0 then parseGeneric d.diffText
         else ["Code modified"]) ∧
      (analyzeOne P d).parseMethod = "generic-fallback") := by
  refine ⟨?_, ?_, analyzeOne_changes_ne_nil, ?_⟩
  · intro P diffs
    unfold analyzeChanges
    rw [List.length_map]
  · intro P pre post d
    unfold analyzeChanges
    rw [List.map_append, List.map_cons]
  · intro P d m hst hbin hft hast
    have hmc : modifiedChanges P d = (parseGeneric d.diffText, "generic-fallback") := by
      unfold modifiedChanges
      rw [hft]
      rw [if_pos (by decide), hast]
      rw [if_neg (by decide)]
      exact jsAstFailureFallback_generic _ _ _
    unfold analyzeOne
    rw [if_neg (by rw [hst]; decide), if_neg (by rw [hst]; decide),
      if_neg (by rw [hst]; decide), if_neg (by rw [hbin]; decide)]
    refine ⟨?_, ?_⟩ <;> simp [hmc]

theorem parseCSSWithDiffFallback_ne_nil (diff : String) :
    parseCSSWithDiffFallback diff ≠ [] := by
  unfold parseCSSWithDiffFallback
  by_cases h : (fallbackMain (cssAddedContent diff) ++
      fallbackSpecial (cssAddedContent diff)).length > 0
  · simp only [if_pos h]
    intro he
    rw [he] at h
    simp at h
  · rw [if_neg h]
    decide

/-- C10: for every non-empty diff string, `parseCSS` resolves to a
non-empty change list (never an exception in the embedding, whose fallback
is a total function of the diff text): an AST-pass error or empty result
falls to the embedded diff-text fallback, which never returns the empty
list; the sample one-line diff under a throwing AST pass yields
`Property modified: color`. -/
theorem C10_parseCSS_total :
    (∀ (fullAST : Except String (List String)) (diff : String),
      diff ≠ "" → parseCSS fullAST diff ≠ []) ∧
    (∀ diff : String, parseCSSWithDiffFallback diff ≠ []) ∧
    (∀ (diff e : String), diff ≠ "" →
      parseCSS (Except.error e) diff = parseCSSWithDiffFallback diff) ∧
    (∀ diff : String, diff ≠ "" →
      parseCSS (Except.ok []) diff = parseCSSWithDiffFallback diff) ∧
    parseCSS (Except.error "boom") cssSampleDiff = ["Property modified: color"] := by
  refine ⟨?_, parseCSSWithDiffFallback_ne_nil, ?_, ?_, by decide⟩
  · intro fullAST diff hne
    unfold parseCSS
    rw [if_neg hne]
    match fullAST with
    | Except.ok changes =>
      by_cases h : changes.length > 0
      · simp only [if_pos h]
        intro he
        rw [he] at h
        simp at h
      · simp only [if_neg h]
        exact parseCSSWithDiffFallback_ne_nil diff
    | Except.error e => exact parseCSSWithDiffFallback_ne_nil diff
  · intro diff e hne
    unfold parseCSS
    rw [if_neg hne]
  · intro diff hne
    unfold parseCSS
    rw [if_neg hne]
    rfl

end DiffInsight
